import Mathlib

/-!
Verification development for the go-mezzanine sharded cell store.

Each Go function named in the claims is translated here as an executable
Lean definition (shallow embedding): machine integers become Nat/Int with
explicit reduction mod 2^32 where Go's uint32 overflows, byte slices become
List Nat, Go strings become Lean String (valid Unicode; Go strings produced
and consumed by the JSON layer are valid UTF-8), database state becomes an
explicit state value threaded through the operations, and fallible Go
functions return Except/Option.
-/

set_option maxRecDepth 4000

/-! ## FNV-32a hashing (internal/shard, hash/fnv)

Go's fnv.New32a starts from offset basis 2166136261 and, for every byte,
XORs the byte into the hash then multiplies by the prime 16777619 in uint32
arithmetic.  Sum32 is the final hash. -/

/-- One step of the FNV-32a loop: XOR in the byte, multiply by the prime,
keep 32 bits. -/
def fnv32aStep (h b : Nat) : Nat := ((h ^^^ b) * 16777619) % 4294967296

/-- Sum32 of the FNV-32a hash over a byte sequence. -/
def fnv32a (bytes : List Nat) : Nat := bytes.foldl fnv32aStep 2166136261

/-- A Go uuid.UUID is 16 bytes; we model it as the byte list. -/
abbrev UUIDBytes := List Nat

/-- Shard id type (shard.ID in the source). -/
abbrev ShardID := Nat

/-- ForRowKey from internal/shard: FNV-32a over the UUID's 16 bytes, taken
mod numShards.  Go computes int(h.Sum32()) % numShards; with Go's 64-bit
int the uint32 value is non-negative, so the result is the Nat remainder. -/
def ForRowKey (rowKey : UUIDBytes) (numShards : Nat) : ShardID :=
  fnv32a rowKey % numShards

/-- UTF-8 encoding of one character, as in Go's string-to-byte conversion.
Written with / and % (identical to Go's shifts and masks on these ranges). -/
def utf8EncodeChar (c : Char) : List Nat :=
  let v := c.toNat
  if v < 128 then [v]
  else if v < 2048 then [192 + v / 64, 128 + v % 64]
  else if v < 65536 then [224 + v / 4096, 128 + (v / 64) % 64, 128 + v % 64]
  else [240 + v / 262144, 128 + (v / 4096) % 64, 128 + (v / 64) % 64, 128 + v % 64]

/-- UTF-8 bytes of a Go string ([]byte(s)). -/
def utf8Encode (s : String) : List Nat := s.data.flatMap utf8EncodeChar

/-- ForKey from internal/shard: FNV-32a over the string's UTF-8 bytes, taken
mod numShards. -/
def ForKey (key : String) (numShards : Nat) : ShardID :=
  fnv32a (utf8Encode key) % numShards

theorem fnv32a_lt (bytes : List Nat) : fnv32a bytes < 4294967296 := by
  unfold fnv32a
  induction bytes using List.reverseRecOn with
  | nil => decide
  | append_singleton xs x _ =>
    rw [List.foldl_append]
    exact Nat.mod_lt _ (by decide)

/-- C2: shard hashing is total (the functions are total Lean functions),
in range, and deterministic: for every UUID byte string, every string and
every positive shard count the results lie in [0, numShards), and they are
exactly the FNV-32a hash of the input bytes taken mod numShards, so equal
inputs give equal outputs. -/
theorem shard_hashing_total_in_range_deterministic
    (u : UUIDBytes) (s : String) (numShards : Nat) (hN : 0 < numShards) :
    ForRowKey u numShards < numShards ∧
    ForKey s numShards < numShards ∧
    ForRowKey u numShards = fnv32a u % numShards ∧
    ForKey s numShards = fnv32a (utf8Encode s) % numShards ∧
    (∀ u' s', u = u' → s = s' →
      ForRowKey u numShards = ForRowKey u' numShards ∧
      ForKey s numShards = ForKey s' numShards) := by
  refine ⟨Nat.mod_lt _ hN, Nat.mod_lt _ hN, rfl, rfl, ?_⟩
  rintro u' s' rfl rfl
  exact ⟨rfl, rfl⟩

/-- Witness for C2 at the 16-byte zero UUID, the string "user", and 64
shards: evaluates the hashes concretely. -/
theorem shard_hashing_witness :
    0 < 64 ∧
    ForRowKey (List.replicate 16 0) 64 < 64 ∧
    ForKey "user" 64 < 64 :=
  ⟨by decide,
   (shard_hashing_total_in_range_deterministic (List.replicate 16 0) "user" 64
     (by decide)).1,
   (shard_hashing_total_in_range_deterministic (List.replicate 16 0) "user" 64
     (by decide)).2.1⟩

/-! ## JSON values

Model of Go JSON documents (encoding/json).  Numbers keep their source
lexeme: Go defers numeric conversion until a value is decoded into a typed
field, and errors there depend on the literal text. -/

inductive Json where
  | null
  | bool (b : Bool)
  | num (lexeme : String)
  | str (s : String)
  | arr (elems : List Json)
  | obj (fields : List (String × Json))

/-! ## Cell store state (internal/storage/postgres.go + migrations.go)

One shard's cell table.  The migration DDL declares
CONSTRAINT uq_..._ref UNIQUE (row_key, column_name, ref_key) and
added_id BIGSERIAL, so an insert fails with a unique violation exactly when
a row with the same triple is already present, and added_id comes from a
monotone sequence (the sequence is consumed even by failing inserts). -/

/-- Database-level error kinds distinguishable from a failed statement.
Postgres reports the violated unique constraint as SQLSTATE 23505; the Go
storage layer wraps the pgx error with fmt.Errorf("write cell: %w", err),
which preserves the underlying kind for errors.Is / errors.As. -/
inductive DBErr where
  | uniqueViolation
  | otherError
deriving DecidableEq

/-- A stored cell row (internal/cell.Cell). -/
structure Cell where
  addedId : Int
  rowKey : UUIDBytes
  columnName : String
  refKey : Int
  body : Json
  createdAt : Int

/-- WriteCellRequest from internal/cell. -/
structure WriteCellRequest where
  rowKey : UUIDBytes
  columnName : String
  refKey : Int
  body : Json

/-- State of one shard's cell table: the stored rows plus the BIGSERIAL
sequence value to be assigned next. -/
structure ShardState where
  cells : List Cell
  nextAdded : Int

/-- The freshly migrated, empty shard table (sequence starts at 1). -/
def emptyShard : ShardState := ⟨[], 1⟩

/-- PostgresStore.WriteCell: INSERT ... RETURNING.  The insert succeeds and
returns the stored row unless the unique constraint on
(row_key, column_name, ref_key) is violated.  now models the DB clock
value used for created_at (DEFAULT now()). -/
def writeCell (s : ShardState) (req : WriteCellRequest) (now : Int) :
    ShardState × Except DBErr Cell :=
  if ∃ c ∈ s.cells, c.rowKey = req.rowKey ∧ c.columnName = req.columnName ∧
      c.refKey = req.refKey then
    ({ s with nextAdded := s.nextAdded + 1 }, .error .uniqueViolation)
  else
    let c : Cell := ⟨s.nextAdded, req.rowKey, req.columnName, req.refKey, req.body, now⟩
    (⟨s.cells ++ [c], s.nextAdded + 1⟩, .ok c)

/-- PostgresStore.GetCell: point lookup on the exact triple
(WHERE row_key = $1 AND column_name = $2 AND ref_key = $3); none matching
is ErrCellNotFound. -/
def getCell (s : ShardState) (rowKey : UUIDBytes) (columnName : String) (refKey : Int) :
    Option Cell :=
  s.cells.find? fun c =>
    decide (c.rowKey = rowKey ∧ c.columnName = columnName ∧ c.refKey = refKey)

/-- One write operation of a trace against a shard. -/
structure WriteOp where
  req : WriteCellRequest
  now : Int

/-- Execute a sequence of WriteCell calls against the shard; reads do not
change state and cells are never updated or deleted by any operation the
store exposes, so traces of writes cover all state evolution. -/
def execTrace (s : ShardState) (ops : List WriteOp) : ShardState :=
  ops.foldl (fun st op => (writeCell st op.req op.now).1) s

/-- The unique-constraint invariant: no two stored rows share the triple. -/
def UniqueTriples (s : ShardState) : Prop :=
  s.cells.Pairwise fun a b =>
    ¬(a.rowKey = b.rowKey ∧ a.columnName = b.columnName ∧ a.refKey = b.refKey)

theorem writeCell_cells_mono (s : ShardState) (req : WriteCellRequest) (now : Int)
    {c : Cell} (hc : c ∈ s.cells) : c ∈ (writeCell s req now).1.cells := by
  unfold writeCell
  split
  · simpa using hc
  · simp only [List.mem_append, List.mem_singleton]
    exact Or.inl hc

theorem execTrace_cells_mono (ops : List WriteOp) (s : ShardState)
    {c : Cell} (hc : c ∈ s.cells) : c ∈ (execTrace s ops).cells := by
  induction ops generalizing s with
  | nil => exact hc
  | cons op rest ih =>
    exact ih _ (writeCell_cells_mono s op.req op.now hc)

theorem writeCell_unique (s : ShardState) (req : WriteCellRequest) (now : Int)
    (h : UniqueTriples s) : UniqueTriples (writeCell s req now).1 := by
  unfold writeCell
  split
  · exact h
  · rename_i hnone
    push_neg at hnone
    unfold UniqueTriples
    simp only [List.pairwise_append]
    refine ⟨h, by simp, ?_⟩
    intro a ha b hb
    simp only [List.mem_singleton] at hb
    subst hb
    intro habs
    obtain ⟨h1, h2, h3⟩ := habs
    exact hnone a ha h1 h2 h3

theorem execTrace_unique (ops : List WriteOp) (s : ShardState)
    (h : UniqueTriples s) : UniqueTriples (execTrace s ops) := by
  induction ops generalizing s with
  | nil => exact h
  | cons op rest ih => exact ih _ (writeCell_unique s op.req op.now h)

theorem find?_of_unique_list (l : List Cell)
    (h : l.Pairwise fun a b =>
      ¬(a.rowKey = b.rowKey ∧ a.columnName = b.columnName ∧ a.refKey = b.refKey))
    (x : Cell) (hx : x ∈ l)
    (rowKey : UUIDBytes) (columnName : String) (refKey : Int)
    (hmatch : x.rowKey = rowKey ∧ x.columnName = columnName ∧ x.refKey = refKey) :
    l.find? (fun c =>
      decide (c.rowKey = rowKey ∧ c.columnName = columnName ∧ c.refKey = refKey))
      = some x := by
  induction l with
  | nil => cases hx
  | cons hd tl ih =>
    have hpair := List.pairwise_cons.mp h
    rw [List.find?]
    rcases List.mem_cons.mp hx with hx' | hx'
    · subst hx'
      simp [hmatch.1, hmatch.2.1, hmatch.2.2]
    · have hne : ¬(hd.rowKey = rowKey ∧ hd.columnName = columnName ∧
          hd.refKey = refKey) := by
        intro habs
        exact hpair.1 x hx'
          ⟨habs.1.trans hmatch.1.symm, habs.2.1.trans hmatch.2.1.symm,
           habs.2.2.trans hmatch.2.2.symm⟩
      rw [decide_eq_false hne]
      exact ih hpair.2 hx'

theorem getCell_of_unique {s : ShardState} (h : UniqueTriples s) {x : Cell}
    (hx : x ∈ s.cells) (rowKey : UUIDBytes) (columnName : String) (refKey : Int)
    (hmatch : x.rowKey = rowKey ∧ x.columnName = columnName ∧ x.refKey = refKey) :
    getCell s rowKey columnName refKey = some x :=
  find?_of_unique_list s.cells h x hx rowKey columnName refKey hmatch

theorem writeCell_ok_shape (s : ShardState) (req : WriteCellRequest) (now : Int)
    (s1 : ShardState) (c : Cell)
    (hwrite : writeCell s req now = (s1, .ok c)) :
    c = ⟨s.nextAdded, req.rowKey, req.columnName, req.refKey, req.body, now⟩ ∧
    s1.cells = s.cells ++ [⟨s.nextAdded, req.rowKey, req.columnName, req.refKey, req.body, now⟩] := by
  unfold writeCell at hwrite
  split at hwrite
  · cases hwrite
  · obtain ⟨hs, hc⟩ := Prod.mk.injEq .. ▸ hwrite
    cases hc
    exact ⟨rfl, by rw [← hs]⟩

theorem uniqueTriples_empty : UniqueTriples emptyShard := List.Pairwise.nil

/-- C1: immutability of cells.  Starting from a fresh shard table, once
WriteCell(r, c, k, body) has succeeded, every later WriteCell for the same
(row_key, column_name, ref_key) triple — after any further sequence of
writes — fails with the unique violation on (row_key, column_name, ref_key)
(the DuplicateVersion condition), and GetCell(r, c, k) still returns the
originally stored cell, whose body is the original body. -/
theorem immutability_of_cells
    (ops0 : List WriteOp) (req : WriteCellRequest) (now : Int)
    (s1 : ShardState) (c : Cell)
    (hwrite : writeCell (execTrace emptyShard ops0) req now = (s1, .ok c))
    (laterOps : List WriteOp) (body' : Json) (now' : Int) :
    (writeCell (execTrace s1 laterOps)
        ⟨req.rowKey, req.columnName, req.refKey, body'⟩ now').2
      = .error .uniqueViolation ∧
    getCell (execTrace s1 laterOps) req.rowKey req.columnName req.refKey = some c ∧
    c.body = req.body := by
  obtain ⟨hc, hcells⟩ := writeCell_ok_shape _ req now s1 c hwrite
  have hmem1 : c ∈ s1.cells := by
    rw [hcells, hc]
    simp
  have hmem2 : c ∈ (execTrace s1 laterOps).cells :=
    execTrace_cells_mono laterOps s1 hmem1
  have hmatch : c.rowKey = req.rowKey ∧ c.columnName = req.columnName ∧
      c.refKey = req.refKey := by rw [hc]; exact ⟨rfl, rfl, rfl⟩
  have huniq1 : UniqueTriples s1 := by
    have h0 := execTrace_unique ops0 emptyShard uniqueTriples_empty
    have := writeCell_unique (execTrace emptyShard ops0) req now h0
    rwa [hwrite] at this
  have huniq2 : UniqueTriples (execTrace s1 laterOps) :=
    execTrace_unique laterOps s1 huniq1
  refine ⟨?_, getCell_of_unique huniq2 hmem2 _ _ _ hmatch, by rw [hc]⟩
  have hex : ∃ cc ∈ (execTrace s1 laterOps).cells,
      cc.rowKey = req.rowKey ∧ cc.columnName = req.columnName ∧
      cc.refKey = req.refKey := ⟨c, hmem2, hmatch⟩
  unfold writeCell
  rw [if_pos hex]

/-- Witness for C1: a concrete first write succeeds, and the theorem applies
to it with one unrelated later write. -/
theorem immutability_of_cells_witness :
    writeCell (execTrace emptyShard []) ⟨[7], "profile", 1, Json.null⟩ 5
      = (⟨[⟨1, [7], "profile", 1, Json.null, 5⟩], 2⟩,
         .ok ⟨1, [7], "profile", 1, Json.null, 5⟩) ∧
    ((writeCell
        (execTrace ⟨[⟨1, [7], "profile", 1, Json.null, 5⟩], 2⟩
          [⟨⟨[9], "profile", 1, Json.null⟩, 6⟩])
        ⟨[7], "profile", 1, Json.bool true⟩ 7).2
      = .error .uniqueViolation ∧
     getCell (execTrace ⟨[⟨1, [7], "profile", 1, Json.null, 5⟩], 2⟩
          [⟨⟨[9], "profile", 1, Json.null⟩, 6⟩]) [7] "profile" 1
      = some ⟨1, [7], "profile", 1, Json.null, 5⟩ ∧
     (⟨1, [7], "profile", 1, Json.null, 5⟩ : Cell).body = Json.null) :=
  ⟨rfl,
   immutability_of_cells [] ⟨[7], "profile", 1, Json.null⟩ 5
     ⟨[⟨1, [7], "profile", 1, Json.null, 5⟩], 2⟩ ⟨1, [7], "profile", 1, Json.null, 5⟩
     rfl [⟨⟨[9], "profile", 1, Json.null⟩, 6⟩] (Json.bool true) 7⟩

/-! ## Backend shard configuration (internal/config/shardconfig.go)

LoadShardConfig reads a JSON file and then validates the parsed backends
against numShards.  The file read and JSON decode are environment steps;
the validation logic below is the translation of the function body after
json.Unmarshal, operating on the parsed list of backends. -/

/-- BackendConfig from internal/config. -/
structure BackendConfig where
  name : String
  databaseURL : String
  shardStart : Int
  shardEnd : Int

/-- Value of covered[i] for the validator's bool slice. -/
def covGet (cov : List Bool) (i : Nat) : Bool := cov.getD i false

/-- The inner loop: for s := b.ShardStart; s <= b.ShardEnd; s++ it rejects a
shard already covered and marks each shard of the range. -/
def markRange (cov : List Bool) (s e : Int) : Except String (List Bool) :=
  if s > e then .ok cov
  else if covGet cov s.toNat then .error "shard is covered by multiple backends"
  else markRange (cov.set s.toNat true) (s + 1) e
termination_by (e + 1 - s).toNat
decreasing_by
  rename_i h _
  omega

/-- The outer loop over backends: per-backend field checks, then range
marking; any failure aborts with the first error. -/
def checkBackends (numShards : Nat) : List BackendConfig → List Bool →
    Except String (List Bool)
  | [], cov => .ok cov
  | b :: rest, cov =>
    if b.databaseURL = "" then .error "backend has empty database_url"
    else if b.shardStart < 0 ∨ b.shardEnd < 0 then .error "backend has negative shard range"
    else if b.shardStart > b.shardEnd then .error "backend has shard_start greater than shard_end"
    else if b.shardEnd ≥ (numShards : Int) then .error "backend shard_end at or above num_shards"
    else
      match markRange cov b.shardStart b.shardEnd with
      | .error e => .error e
      | .ok cov' => checkBackends numShards rest cov'

/-- LoadShardConfig's validation: at least one backend, per-backend checks,
no double coverage, and every shard 0..numShards-1 covered. -/
def LoadShardConfig (backends : List BackendConfig) (numShards : Nat) :
    Except String (List BackendConfig) :=
  if backends.isEmpty then .error "shard config: no backends defined"
  else
    match checkBackends numShards backends (List.replicate numShards false) with
    | .error e => .error e
    | .ok cov =>
      if (List.range numShards).all (fun s => covGet cov s) then .ok backends
      else .error "shard config: shard is not covered by any backend"

/-- Per-backend validity as the claim states it. -/
def BackendOk (N : Nat) (b : BackendConfig) : Prop :=
  b.databaseURL ≠ "" ∧ 0 ≤ b.shardStart ∧ b.shardStart ≤ b.shardEnd ∧
  b.shardEnd < (N : Int)

/-- Shard s lies in backend b's range. -/
def InRange (b : BackendConfig) (s : Int) : Prop :=
  b.shardStart ≤ s ∧ s ≤ b.shardEnd

instance (b : BackendConfig) (s : Int) : Decidable (InRange b s) :=
  inferInstanceAs (Decidable (_ ∧ _))

/-- The claim's acceptance condition: nonempty, all backends well formed,
ranges pairwise disjoint, and the union of the ranges is exactly
the set of shards 0..N-1 (containment in [0,N) is part of BackendOk). -/
def ValidShardConfig (backends : List BackendConfig) (N : Nat) : Prop :=
  backends ≠ [] ∧
  (∀ b ∈ backends, BackendOk N b) ∧
  backends.Pairwise (fun a b => ∀ s : Int, ¬(InRange a s ∧ InRange b s)) ∧
  (∀ s : Nat, s < N → ∃ b ∈ backends, InRange b (s : Int))

theorem covGet_set (cov : List Bool) (i j : Nat) (b : Bool) :
    covGet (cov.set i b) j =
      if i = j ∧ i < cov.length then b else covGet cov j := by
  induction cov generalizing i j with
  | nil => simp [covGet]
  | cons hd tl ih =>
    cases i with
    | zero =>
      cases j with
      | zero => simp [covGet, List.set]
      | succ j => simp [covGet, List.set, List.getD]
    | succ i =>
      cases j with
      | zero => simp [covGet, List.set, List.getD]
      | succ j =>
        simp only [List.set, covGet, List.getD_cons_succ, List.length_cons]
        have hrw : covGet (tl.set i b) j =
            if i = j ∧ i < tl.length then b else covGet tl j := ih i j
        rw [covGet] at hrw
        rw [hrw]
        by_cases h : i = j ∧ i < tl.length
        · rw [if_pos h, if_pos ⟨by omega, by omega⟩]
        · rw [if_neg h, if_neg (by omega)]
          rfl

theorem covGet_replicate (n j : Nat) : covGet (List.replicate n false) j = false := by
  induction n generalizing j with
  | zero => simp [covGet]
  | succ n ih =>
    cases j with
    | zero => simp [covGet, List.replicate]
    | succ j => simp [covGet, List.replicate, List.getD]

theorem markRange_spec (n : Nat) : ∀ (s e : Int) (cov cov' : List Bool),
    (e + 1 - s).toNat = n → 0 ≤ s → e < (cov.length : Int) →
    markRange cov s e = .ok cov' →
    cov'.length = cov.length ∧
    (∀ j : Nat, covGet cov' j =
      (covGet cov j || decide (s ≤ (j : Int) ∧ (j : Int) ≤ e))) ∧
    (∀ i : Int, s ≤ i → i ≤ e → covGet cov i.toNat = false) := by
  induction n with
  | zero =>
    intro s e cov cov' hn hs he h
    have hse : s > e := by omega
    rw [markRange, if_pos hse] at h
    cases h
    refine ⟨rfl, ?_, by omega⟩
    intro j
    rw [decide_eq_false (by omega), Bool.or_false]
  | succ n ih =>
    intro s e cov cov' hn hs he h
    rw [markRange] at h
    split at h
    · cases h
      rename_i hse
      refine ⟨rfl, ?_, by omega⟩
      intro j
      rw [decide_eq_false (by omega), Bool.or_false]
    · rename_i hse
      split at h
      · cases h
      · rename_i hfresh0
        rw [Bool.not_eq_true] at hfresh0
        have hlen := List.length_set cov s.toNat true
        obtain ⟨ihlen, ihchar, ihfresh⟩ :=
          ih (s + 1) e (cov.set s.toNat true) cov' (by omega) (by omega)
            (by rw [hlen]; exact he) h
        refine ⟨ihlen.trans hlen, ?_, ?_⟩
        · intro j
          rw [ihchar j, covGet_set]
          by_cases hj : s.toNat = j
          · have hjs : (j : Int) = s := by omega
            rw [if_pos ⟨hj, by omega⟩]
            have hd : decide (s ≤ (j : Int) ∧ (j : Int) ≤ e) = true :=
              decide_eq_true (by omega)
            rw [hd]
            simp
          · rw [if_neg (by tauto)]
            by_cases hcov : covGet cov j
            · simp [hcov]
            · rw [Bool.not_eq_true] at hcov
              rw [hcov, Bool.false_or, Bool.false_or, decide_eq_decide]
              omega
        · intro i hi1 hi2
          rcases eq_or_lt_of_le hi1 with heq | hlt
          · exact heq ▸ hfresh0
          · have := ihfresh i (by omega) hi2
            rw [covGet_set, if_neg (by omega)] at this
            exact this

theorem markRange_ok (n : Nat) : ∀ (s e : Int) (cov : List Bool),
    (e + 1 - s).toNat = n → 0 ≤ s →
    (∀ i : Int, s ≤ i → i ≤ e → covGet cov i.toNat = false) →
    ∃ cov', markRange cov s e = .ok cov' := by
  induction n with
  | zero =>
    intro s e cov hn hs hfresh
    exact ⟨cov, by rw [markRange, if_pos (by omega)]⟩
  | succ n ih =>
    intro s e cov hn hs hfresh
    by_cases hse : s > e
    · exact ⟨cov, by rw [markRange, if_pos hse]⟩
    · obtain ⟨cov', hcov'⟩ := ih (s + 1) e (cov.set s.toNat true) (by omega) (by omega)
        (by
          intro i hi1 hi2
          rw [covGet_set, if_neg (by omega)]
          exact hfresh i (by omega) hi2)
      refine ⟨cov', ?_⟩
      rw [markRange, if_neg hse, hfresh s le_rfl (by omega), hcov']
      simp

theorem checkBackends_spec (N : Nat) (bs : List BackendConfig) :
    ∀ (cov cov' : List Bool), cov.length = N →
    checkBackends N bs cov = .ok cov' →
    (∀ b ∈ bs, BackendOk N b) ∧
    (∀ b ∈ bs, ∀ i : Int, InRange b i → covGet cov i.toNat = false) ∧
    bs.Pairwise (fun a b => ∀ s : Int, ¬(InRange a s ∧ InRange b s)) ∧
    cov'.length = N ∧
    (∀ j : Nat, covGet cov' j =
      (covGet cov j || decide (∃ b ∈ bs, InRange b (j : Int)))) := by
  induction bs with
  | nil =>
    intro cov cov' hlen h
    cases h
    refine ⟨by simp, by simp, List.Pairwise.nil, hlen, ?_⟩
    intro j
    simp
  | cons b rest ih =>
    intro cov cov' hlen h
    rw [checkBackends] at h
    split at h
    · cases h
    · split at h
      · cases h
      · split at h
        · cases h
        · split at h
          · cases h
          · rename_i hurl hneg hse hend
            revert h
            cases hm : markRange cov b.shardStart b.shardEnd with
            | error e => intro h; cases h
            | ok cov1 =>
              intro h
              have hs0 : (0 : Int) ≤ b.shardStart := by omega
              have hebound : b.shardEnd < (cov.length : Int) := by
                rw [hlen]; omega
              obtain ⟨hlen1, hchar1, hfresh1⟩ :=
                markRange_spec (b.shardEnd + 1 - b.shardStart).toNat
                  b.shardStart b.shardEnd cov cov1 rfl hs0 hebound hm
              obtain ⟨ihok, ihfresh, ihpair, ihlen, ihchar⟩ :=
                ih cov1 cov' (hlen1.trans hlen) h
              have hbok : BackendOk N b := ⟨hurl, by omega, by omega, by omega⟩
              refine ⟨?_, ?_, ?_, ihlen, ?_⟩
              · intro b' hb'
                rcases List.mem_cons.mp hb' with rfl | hb'
                · exact hbok
                · exact ihok b' hb'
              · intro b' hb' i hi
                rcases List.mem_cons.mp hb' with rfl | hb'
                · exact hfresh1 i hi.1 hi.2
                · have h1 := ihfresh b' hb' i hi
                  rw [hchar1 i.toNat] at h1
                  exact (Bool.or_eq_false_iff.mp h1).1
              · refine List.pairwise_cons.mpr ⟨?_, ihpair⟩
                intro b' hb' s hs
                have hge : 0 ≤ s := le_trans hs0 hs.1.1
                have h1 := ihfresh b' hb' s hs.2
                rw [hchar1 s.toNat] at h1
                have hind : decide (b.shardStart ≤ (s.toNat : Int) ∧
                    (s.toNat : Int) ≤ b.shardEnd) = true :=
                  decide_eq_true (by
                    have h11 := hs.1.1
                    have h12 := hs.1.2
                    constructor
                    · omega
                    · omega)
                rw [hind] at h1
                simp at h1
              · intro j
                rw [ihchar j, hchar1 j]
                have hdecsplit : decide (∃ x ∈ b :: rest, InRange x (j : Int)) =
                    (decide (InRange b (j : Int)) ||
                     decide (∃ x ∈ rest, InRange x (j : Int))) := by
                  by_cases h1 : InRange b (j : Int)
                  · rw [decide_eq_true h1, Bool.true_or, decide_eq_true]
                    exact ⟨b, List.mem_cons_self b rest, h1⟩
                  · rw [decide_eq_false h1, Bool.false_or, decide_eq_decide]
                    constructor
                    · rintro ⟨x, hx, hpx⟩
                      rcases List.mem_cons.mp hx with rfl | hx
                      · exact absurd hpx h1
                      · exact ⟨x, hx, hpx⟩
                    · rintro ⟨x, hx, hpx⟩
                      exact ⟨x, List.mem_cons_of_mem b hx, hpx⟩
                rw [hdecsplit]
                have hinb : decide (InRange b (j : Int)) =
                    decide (b.shardStart ≤ (j : Int) ∧ (j : Int) ≤ b.shardEnd) := by
                  rw [decide_eq_decide]
                  exact Iff.rfl
                rw [hinb, Bool.or_assoc]

theorem checkBackends_ok (N : Nat) (bs : List BackendConfig) :
    ∀ (cov : List Bool), cov.length = N →
    (∀ b ∈ bs, BackendOk N b) →
    bs.Pairwise (fun a b => ∀ s : Int, ¬(InRange a s ∧ InRange b s)) →
    (∀ b ∈ bs, ∀ i : Int, InRange b i → covGet cov i.toNat = false) →
    ∃ cov', checkBackends N bs cov = .ok cov' := by
  induction bs with
  | nil =>
    intro cov _ _ _ _
    exact ⟨cov, rfl⟩
  | cons b rest ih =>
    intro cov hlen hok hpair hfresh
    obtain ⟨hb1, hb2, hb3, hb4⟩ := hok b (List.mem_cons_self b rest)
    obtain ⟨cov1, hm⟩ := markRange_ok (b.shardEnd + 1 - b.shardStart).toNat
      b.shardStart b.shardEnd cov rfl hb2
      (fun i h1 h2 => hfresh b (List.mem_cons_self b rest) i ⟨h1, h2⟩)
    have hebound : b.shardEnd < (cov.length : Int) := by rw [hlen]; omega
    obtain ⟨hlen1, hchar1, _⟩ :=
      markRange_spec (b.shardEnd + 1 - b.shardStart).toNat
        b.shardStart b.shardEnd cov cov1 rfl hb2 hebound hm
    have hheadpair := (List.pairwise_cons.mp hpair).1
    obtain ⟨cov', hrest⟩ := ih cov1 (hlen1.trans hlen)
      (fun b' hb' => hok b' (List.mem_cons_of_mem b hb'))
      (List.pairwise_cons.mp hpair).2
      (by
        intro b' hb' i hi
        rw [hchar1 i.toNat]
        have hge : 0 ≤ i :=
          le_trans (hok b' (List.mem_cons_of_mem b hb')).2.1 hi.1
        have hnb : ¬InRange b i := fun hbi => hheadpair b' hb' i ⟨hbi, hi⟩
        rw [hfresh b' (List.mem_cons_of_mem b hb') i hi]
        rw [decide_eq_false (by
          intro habs
          refine hnb ⟨?_, ?_⟩
          · have := habs.1
            omega
          · have := habs.2
            omega)]
        rfl)
    refine ⟨cov', ?_⟩
    rw [checkBackends, if_neg hb1, if_neg (by omega), if_neg (by omega),
      if_neg (by omega), hm]
    exact hrest

/-- C3: LoadShardConfig accepts a backend configuration if and only if it
lists at least one backend, every backend has a non-empty database_url,
every backend range satisfies 0 <= shard_start <= shard_end < numShards,
the ranges are pairwise disjoint, and their union is exactly the whole set
of shards 0..numShards-1; any violation is rejected with an error. -/
theorem load_shard_config_accepts_iff_valid
    (backends : List BackendConfig) (numShards : Nat) :
    (∃ cfg, LoadShardConfig backends numShards = .ok cfg) ↔
    ValidShardConfig backends numShards := by
  constructor
  · rintro ⟨cfg, h⟩
    rw [LoadShardConfig] at h
    split at h
    · cases h
    · rename_i hne
      revert h
      cases hcb : checkBackends numShards backends
          (List.replicate numShards false) with
      | error e => intro h; cases h
      | ok cov =>
        intro h
        obtain ⟨hok, _, hpair, _, hchar⟩ :=
          checkBackends_spec numShards backends _ cov
            (List.length_replicate numShards false) hcb
        by_cases hall : ((List.range numShards).all fun s => covGet cov s) = true
        · refine ⟨fun habs => hne (by rw [habs]; rfl), hok, hpair, ?_⟩
          intro s hs
          have := List.all_eq_true.mp hall s (List.mem_range.mpr hs)
          rw [hchar s, covGet_replicate, Bool.false_or] at this
          exact of_decide_eq_true this
        · replace h : (if ((List.range numShards).all fun s => covGet cov s) = true
              then Except.ok backends
              else (Except.error "shard config: shard is not covered by any backend" :
                Except String (List BackendConfig))) = Except.ok cfg := h
          rw [if_neg hall] at h
          cases h
  · rintro ⟨hne, hok, hpair, hcover⟩
    obtain ⟨cov, hcb⟩ := checkBackends_ok numShards backends
      (List.replicate numShards false) (List.length_replicate numShards false)
      hok hpair (fun b _ i _ => covGet_replicate numShards i.toNat)
    obtain ⟨_, _, _, _, hchar⟩ :=
      checkBackends_spec numShards backends _ cov
        (List.length_replicate numShards false) hcb
    refine ⟨backends, ?_⟩
    rw [LoadShardConfig, if_neg (by
      intro habs
      exact hne (List.isEmpty_iff.mp habs)), hcb]
    show (if ((List.range numShards).all fun s => covGet cov s) = true
        then Except.ok backends else Except.error _) = Except.ok backends
    rw [if_pos (by
      refine List.all_eq_true.mpr ?_
      intro s hsmem
      have hs := List.mem_range.mp hsmem
      rw [hchar s, covGet_replicate, Bool.false_or]
      exact decide_eq_true (hcover s hs))]

/-! ## Plugin registry (internal/trigger, PluginRegistry)

Register and Delete hold the write lock, check preconditions, then — when a
persistent store is configured — persist first and only update the
in-memory map after the store call returns nil.  The store call's outcome
is an oracle parameter (the store is an external database); the Bool in the
result records whether the store was consulted. -/

/-- Plugin from internal/trigger (status is the string "active" or
"inactive"; Register defaults it). -/
structure Plugin where
  id : UUIDBytes
  name : String
  endpoint : String
  subscribedColumns : List String
  status : String
  createdAt : Int

/-- In-memory registry state: the id-keyed map plus whether a persistent
store is configured. -/
structure PluginRegistry where
  plugins : List (UUIDBytes × Plugin)
  hasStore : Bool

/-- Result of a registry mutation. -/
inductive RegResult where
  | done
  | nameConflict
  | notFound
  | storeFailed
deriving DecidableEq

/-- Go map assignment m[k] = v: replace the entry if the key is present,
otherwise add it. -/
def mapInsert (m : List (UUIDBytes × Plugin)) (k : UUIDBytes) (v : Plugin) :
    List (UUIDBytes × Plugin) :=
  if ∃ kv ∈ m, kv.1 = k then
    m.map fun kv => if kv.1 = k then (k, v) else kv
  else m ++ [(k, v)]

/-- Field assignments Register performs before persisting: fresh id,
creation time, and the active-status default. -/
def applyRegisterDefaults (p : Plugin) (newId : UUIDBytes) (now : Int) : Plugin :=
  { p with id := newId, createdAt := now,
           status := if p.status = "" then "active" else p.status }

/-- PluginRegistry.Register: name-conflict check, defaults, store
write-through (SavePlugin) when configured, then the map update.  Returns
the state, the result, and whether the store was consulted. -/
def register (r : PluginRegistry) (p : Plugin) (newId : UUIDBytes) (now : Int)
    (storeOutcome : Except String Unit) :
    PluginRegistry × RegResult × Bool :=
  if ∃ kv ∈ r.plugins, kv.2.name = p.name then (r, .nameConflict, false)
  else
    let p' := applyRegisterDefaults p newId now
    if r.hasStore then
      match storeOutcome with
      | .error _ => (r, .storeFailed, true)
      | .ok _ => ({ r with plugins := mapInsert r.plugins newId p' }, .done, true)
    else ({ r with plugins := mapInsert r.plugins newId p' }, .done, false)

/-- PluginRegistry.Delete: existence check, store delete (DeletePlugin)
when configured, then the map removal. -/
def deletePlugin (r : PluginRegistry) (id : UUIDBytes)
    (storeOutcome : Except String Unit) :
    PluginRegistry × RegResult × Bool :=
  if ∃ kv ∈ r.plugins, kv.1 = id then
    if r.hasStore then
      match storeOutcome with
      | .error _ => (r, .storeFailed, true)
      | .ok _ =>
        ({ r with plugins := r.plugins.filter fun kv => !decide (kv.1 = id) },
         .done, true)
    else
      ({ r with plugins := r.plugins.filter fun kv => !decide (kv.1 = id) },
       .done, false)
  else (r, .notFound, false)

/-- C9: with a configured persistent store, Register and Delete write
through to the store before touching the in-memory map: a store failure
leaves the map unchanged and reports the failure (after having consulted
the store), and only a successful store call updates the map. -/
theorem plugin_registry_write_through
    (r : PluginRegistry) (p : Plugin) (newId : UUIDBytes) (now : Int)
    (id : UUIDBytes) (e : String) (hstore : r.hasStore = true) :
    (register r p newId now (.error e)).1 = r ∧
    (deletePlugin r id (.error e)).1 = r ∧
    ((¬∃ kv ∈ r.plugins, kv.2.name = p.name) →
      (register r p newId now (.error e)).2 = (.storeFailed, true) ∧
      (register r p newId now (.ok ())).2 = (.done, true) ∧
      (register r p newId now (.ok ())).1.plugins =
        mapInsert r.plugins newId (applyRegisterDefaults p newId now)) ∧
    ((∃ kv ∈ r.plugins, kv.1 = id) →
      (deletePlugin r id (.error e)).2 = (.storeFailed, true) ∧
      (deletePlugin r id (.ok ())).2 = (.done, true) ∧
      (deletePlugin r id (.ok ())).1.plugins =
        r.plugins.filter fun kv => !decide (kv.1 = id)) := by
  unfold register deletePlugin
  refine ⟨?_, ?_, ?_, ?_⟩
  · split
    · rfl
    · rw [hstore]
  · split
    · rw [hstore]
    · rfl
  · intro hnc
    simp [if_neg hnc, hstore]
  · intro hfound
    simp [if_pos hfound, hstore]

/-- Witness for C9 at a concrete one-plugin registry with a store. -/
theorem plugin_registry_write_through_witness :
    (PluginRegistry.mk
        [([1], ⟨[1], "billing", "http://x/rpc", ["profile"], "active", 3⟩)]
        true).hasStore = true ∧
    (register (PluginRegistry.mk
        [([1], ⟨[1], "billing", "http://x/rpc", ["profile"], "active", 3⟩)] true)
        ⟨[], "audit", "http://y/rpc", ["profile"], "", 0⟩ [2] 9 (.error "db down")).1
      = PluginRegistry.mk
          [([1], ⟨[1], "billing", "http://x/rpc", ["profile"], "active", 3⟩)] true ∧
    (deletePlugin (PluginRegistry.mk
        [([1], ⟨[1], "billing", "http://x/rpc", ["profile"], "active", 3⟩)] true)
        [1] (.error "db down")).1
      = PluginRegistry.mk
          [([1], ⟨[1], "billing", "http://x/rpc", ["profile"], "active", 3⟩)] true :=
  ⟨rfl,
   (plugin_registry_write_through
     (PluginRegistry.mk
       [([1], ⟨[1], "billing", "http://x/rpc", ["profile"], "active", 3⟩)] true)
     ⟨[], "audit", "http://y/rpc", ["profile"], "", 0⟩ [2] 9 [1] "db down" rfl).1,
   (plugin_registry_write_through
     (PluginRegistry.mk
       [([1], ⟨[1], "billing", "http://x/rpc", ["profile"], "active", 3⟩)] true)
     ⟨[], "audit", "http://y/rpc", ["profile"], "", 0⟩ [2] 9 [1] "db down" rfl).2.1⟩

/-! ## JSON-RPC client with retries (internal/trigger/jsonrpc.go)

RPCClient.Call performs up to maxRetries+1 attempts of doRequest, sleeping
baseDelay * 2^attempt between attempts; it returns the first successful
response, or the last error once attempts are exhausted.  Time and context
cancellation are not modeled (the claim is about which outcomes retry);
each attempt's HTTP outcome is an oracle function of the attempt index. -/

/-- A JSON-RPC 2.0 error object. -/
structure JSONRPCError where
  code : Int
  message : String
deriving DecidableEq

/-- A decoded JSON-RPC 2.0 response; Result is opaque to the dispatcher so
it is not modeled. -/
structure JSONRPCResponse where
  jsonrpc : String
  error : Option JSONRPCError
deriving DecidableEq

/-- What the wire produced for a 200 response: either bytes that fail
json.Unmarshal (including a body-read error) or a decoded response. -/
inductive RespBody where
  | malformed
  | wellFormed (r : JSONRPCResponse)
deriving DecidableEq

/-- One attempt's HTTP-level outcome. -/
inductive HTTPOutcome where
  | transportError
  | response (status : Nat) (body : RespBody)
deriving DecidableEq

/-- Errors doRequest returns (each triggers a retry in Call). -/
inductive RPCErr where
  | transport
  | serverError (status : Nat)
  | unexpectedStatus (status : Nat)
  | badJson
deriving DecidableEq

/-- RPCClient.doRequest: transport failure is an error; a status >= 500 is
"server error"; any other non-200 status is "unexpected status"; a 200 with
a body that does not unmarshal is an error; otherwise the decoded response
is returned (whether or not it carries a JSON-RPC error object). -/
def doRequest (o : HTTPOutcome) : Except RPCErr JSONRPCResponse :=
  match o with
  | .transportError => .error .transport
  | .response status body =>
    if status ≥ 500 then .error (.serverError status)
    else if status ≠ 200 then .error (.unexpectedStatus status)
    else match body with
      | .malformed => .error .badJson
      | .wellFormed r => .ok r

/-- The attempt loop of RPCClient.Call from a given attempt index: return
on the first doRequest success, otherwise remember the error and continue
while attempt < maxRetries.  The second component counts attempts made. -/
def rpcCallFrom (outcomes : Nat → HTTPOutcome) (maxRetries : Nat) (attempt : Nat) :
    Except RPCErr JSONRPCResponse × Nat :=
  match doRequest (outcomes attempt) with
  | .ok r => (.ok r, attempt + 1)
  | .error e =>
    if attempt < maxRetries then rpcCallFrom outcomes maxRetries (attempt + 1)
    else (.error e, attempt + 1)
termination_by maxRetries + 1 - attempt

/-- RPCClient.Call (retry skeleton): attempts start at index 0. -/
def rpcCall (maxRetries : Nat) (outcomes : Nat → HTTPOutcome) :
    Except RPCErr JSONRPCResponse × Nat :=
  rpcCallFrom outcomes maxRetries 0

theorem rpcCallFrom_error (outcomes : Nat → HTTPOutcome)
    (maxRetries attempt : Nat) (e : RPCErr)
    (he : doRequest (outcomes attempt) = .error e) :
    rpcCallFrom outcomes maxRetries attempt =
      if attempt < maxRetries then rpcCallFrom outcomes maxRetries (attempt + 1)
      else (.error e, attempt + 1) := by
  rw [rpcCallFrom, he]

/-- Counterexample to C6 as stated: with maxRetries = 1, an attempt that
receives HTTP 404 — a 4xx — is followed by a second attempt: the dispatcher
makes 2 attempts, so a 4xx response is not final. -/
theorem rpc_4xx_is_retried_counterexample :
    (rpcCall 1 (fun _ => HTTPOutcome.response 404 RespBody.malformed)).2 = 2 ∧
    (rpcCall 1 (fun _ => HTTPOutcome.response 404 RespBody.malformed)).1
      = .error (.unexpectedStatus 404) ∧
    doRequest (HTTPOutcome.response 404 RespBody.malformed)
      = .error (.unexpectedStatus 404) := by
  have h0 : doRequest ((fun _ => HTTPOutcome.response 404 RespBody.malformed) 0)
      = .error (.unexpectedStatus 404) := rfl
  have h1 : doRequest ((fun _ => HTTPOutcome.response 404 RespBody.malformed) 1)
      = .error (.unexpectedStatus 404) := rfl
  have hrun : rpcCall 1 (fun _ => HTTPOutcome.response 404 RespBody.malformed)
      = (.error (.unexpectedStatus 404), 2) := by
    rw [rpcCall, rpcCallFrom_error _ 1 0 _ h0, if_pos (by omega),
      rpcCallFrom_error _ 1 1 _ h1, if_neg (by omega)]
  rw [hrun]
  exact ⟨rfl, rfl, rfl⟩

theorem rpcCallFrom_all_fail (n : Nat) : ∀ (outcomes : Nat → HTTPOutcome)
    (maxRetries attempt : Nat), maxRetries - attempt = n → attempt ≤ maxRetries →
    (∀ k, attempt ≤ k → k ≤ maxRetries → ∃ e, doRequest (outcomes k) = .error e) →
    (rpcCallFrom outcomes maxRetries attempt).2 = maxRetries + 1 ∧
    ∃ e, (rpcCallFrom outcomes maxRetries attempt).1 = .error e ∧
      doRequest (outcomes maxRetries) = .error e := by
  induction n with
  | zero =>
    intro outcomes maxRetries attempt hn hle hfail
    have hat : attempt = maxRetries := by omega
    subst hat
    obtain ⟨e, he⟩ := hfail attempt le_rfl le_rfl
    rw [rpcCallFrom_error _ attempt attempt _ he, if_neg (by omega)]
    exact ⟨rfl, e, rfl, he⟩
  | succ n ih =>
    intro outcomes maxRetries attempt hn hle hfail
    obtain ⟨e, he⟩ := hfail attempt le_rfl (by omega)
    rw [rpcCallFrom_error _ maxRetries attempt _ he, if_pos (by omega)]
    exact ih outcomes maxRetries (attempt + 1) (by omega) (by omega)
      (fun k hk1 hk2 => hfail k (by omega) hk2)

/-- C6 amended: a 4xx response is treated like every other non-200 status
or transport failure — it is retried while attempts remain.  When every
attempt fails (in particular when every attempt receives a 4xx), Call makes
exactly maxRetries+1 attempts and then returns the last error; only a
successful 200 response ends the delivery early. -/
theorem rpc_non_200_retried_until_exhausted
    (maxRetries : Nat) (outcomes : Nat → HTTPOutcome)
    (hfail : ∀ k, k ≤ maxRetries → ∃ e, doRequest (outcomes k) = .error e) :
    (rpcCall maxRetries outcomes).2 = maxRetries + 1 ∧
    ∃ e, (rpcCall maxRetries outcomes).1 = .error e ∧
      doRequest (outcomes maxRetries) = .error e :=
  rpcCallFrom_all_fail maxRetries outcomes maxRetries 0 (by omega) (by omega)
    (fun k _ hk2 => hfail k hk2)

/-- Witness for the amended C6 at maxRetries = 2 with every attempt
receiving HTTP 404: three attempts are made. -/
theorem rpc_non_200_retried_witness :
    (rpcCall 2 (fun _ => HTTPOutcome.response 404 RespBody.malformed)).2 = 2 + 1 ∧
    ∃ e, (rpcCall 2 (fun _ => HTTPOutcome.response 404 RespBody.malformed)).1
        = .error e ∧
      doRequest ((fun _ => HTTPOutcome.response 404 RespBody.malformed) 2)
        = .error e :=
  rpc_non_200_retried_until_exhausted 2
    (fun _ => HTTPOutcome.response 404 RespBody.malformed)
    (by
      intro k _
      exact ⟨RPCErr.unexpectedStatus 404, rfl⟩)

/-! ## Index registry and index stores (internal/index, src/unnamed/part_014)

IndexCell walks every definition whose source_column matches the written
cell's column, extracts the shard key string from the body, projects the
configured fields, routes by ForKey, and inserts the denormalized row.  The
per-(index, shard) tables carry unique indexes on body->>'f' for each f in
unique_fields (buildTableDDL), so the database refuses an insert whose
unique-field text value already exists in that table. -/

/-- Definition from internal/index. -/
structure IndexDefinition where
  name : String
  sourceColumn : String
  shardKeyField : String
  fields : List String
  uniqueFields : List String

/-- Entry from internal/index (a row of an index table). -/
structure Entry where
  addedId : Int
  shardKey : String
  rowKey : UUIDBytes
  body : Json
  createdAt : Int

/-- One index table's state. -/
structure IndexTable where
  entries : List Entry
  nextAdded : Int

/-- Last-occurrence lookup in a JSON object's field list (Go decodes an
object into a map, where a duplicated key keeps its last value). -/
def jsonLookupLast (fields : List (String × Json)) (key : String) : Option Json :=
  ((fields.filter fun kv => kv.1 = key).getLast?).map (·.2)

/-- extractString from internal/index: unmarshal the body into a map and
read the field as a string.  A JSON null field unmarshals into a string
variable as a no-op, yielding the empty string without error. -/
def extractString (body : Json) (field : String) : Except String String :=
  match body with
  | .obj fields =>
    match jsonLookupLast fields field with
    | none => .error "field not found"
    | some (.str s) => .ok s
    | some .null => .ok ""
    | some _ => .error "field is not a string"
  | _ => .error "unmarshal body"

/-- Keep the first pair for every key (the pairs all come from the same
map, so duplicates carry equal values). -/
def dedupByKey : List (String × Json) → List (String × Json)
  | [] => []
  | (k, v) :: rest =>
    (k, v) :: dedupByKey (rest.filter fun kv => !decide (kv.1 = k))
termination_by l => l.length
decreasing_by
  simp only [List.length_cons]
  exact Nat.lt_succ_of_le (List.length_filter_le _ _)

/-- Insert into a sorted list (used to model deterministic orderings the
database or json.Marshal impose). -/
def sortedInsertBy (le : α → α → Bool) (x : α) : List α → List α
  | [] => [x]
  | y :: ys => if le x y then x :: y :: ys else y :: sortedInsertBy le x ys

/-- Sort a list by the given comparator. -/
def sortBy (le : α → α → Bool) (l : List α) : List α :=
  l.foldr (sortedInsertBy le) []

/-- extractFields from internal/index: copy the listed keys that are
present from the body into a fresh object; json.Marshal of a Go map emits
the keys in sorted order. -/
def extractFields (body : Json) (fields : List String) : Except String Json :=
  match body with
  | .obj bfields =>
    .ok (.obj (sortBy (fun a b => a.1 ≤ b.1)
      (dedupByKey (fields.filterMap fun f =>
        (jsonLookupLast bfields f).map fun v => (f, v)))))
  | _ => .error "unmarshal body"

/-- Text extraction body->>'f' used by the unique indexes (index table DDL):
the text of a string, number or bool field; NULL for a missing or null
field (Postgres unique indexes admit any number of NULLs). -/
def fieldText (body : Json) (f : String) : Option String :=
  match body with
  | .obj fields =>
    match jsonLookupLast fields f with
    | some (.str s) => some s
    | some (.num l) => some l
    | some (.bool b) => some (if b then "true" else "false")
    | _ => none
  | _ => none

/-- Store.WriteEntry plus the database's unique-index check: the insert is
refused when some unique field's text value already appears in this table
(both non-NULL and equal); otherwise the row is appended with the next
added_id. -/
def writeEntry (d : IndexDefinition) (t : IndexTable) (shardKey : String)
    (rowKey : UUIDBytes) (body : Json) (now : Int) :
    IndexTable × Except String Entry :=
  if ∃ f ∈ d.uniqueFields, ∃ old ∈ t.entries,
      (fieldText old.body f).isSome ∧ fieldText old.body f = fieldText body f then
    ({ t with nextAdded := t.nextAdded + 1 }, .error "duplicate unique field")
  else
    let e : Entry := ⟨t.nextAdded, shardKey, rowKey, body, now⟩
    (⟨t.entries ++ [e], t.nextAdded + 1⟩, .ok e)

/-- The registry's per-(index name, shard) store map. -/
abbrev IndexState := List ((String × Nat) × IndexTable)

/-- StoreFor: first (and by construction only) entry for the key. -/
def stateLookup (st : IndexState) (name : String) (shard : Nat) :
    Option IndexTable :=
  (st.find? fun kv => decide (kv.1.1 = name ∧ kv.1.2 = shard)).map (·.2)

/-- Replace the table stored under a key. -/
def stateUpdate (st : IndexState) (name : String) (shard : Nat)
    (t : IndexTable) : IndexState :=
  st.map fun kv => if kv.1.1 = name ∧ kv.1.2 = shard then (kv.1, t) else kv

/-- The loop body of Registry.IndexCell over the matching definitions, in
order: extract the shard key, project the fields, resolve the store via
ForKey, write the entry; the first failure returns immediately (entries
already written stay — there is no cross-store transaction). -/
def indexCellLoop (defs : List IndexDefinition) (st : IndexState) (c : Cell)
    (numShards : Nat) (now : Int) : IndexState × Option String :=
  match defs with
  | [] => (st, none)
  | d :: rest =>
    match extractString c.body d.shardKeyField with
    | .error e => (st, some e)
    | .ok shardKeyValue =>
      match extractFields c.body d.fields with
      | .error e => (st, some e)
      | .ok body =>
        match stateLookup st d.name (ForKey shardKeyValue numShards) with
        | none => (st, some "no store for shard")
        | some table =>
          match writeEntry d table shardKeyValue c.rowKey body now with
          | (t2, .error e) =>
            (stateUpdate st d.name (ForKey shardKeyValue numShards) t2, some e)
          | (t2, .ok _) =>
            indexCellLoop rest
              (stateUpdate st d.name (ForKey shardKeyValue numShards) t2)
              c numShards now

/-- Registry.IndexCell: dispatch the cell to every definition whose
source_column equals the cell's column_name (ForColumn). -/
def IndexCell (defs : List IndexDefinition) (st : IndexState) (c : Cell)
    (numShards : Nat) (now : Int) : IndexState × Option String :=
  indexCellLoop (defs.filter fun d => d.sourceColumn = c.columnName)
    st c numShards now

/-! ## The write coordinator (spec-modelled handler)

Modelled from the spec: the current CellHandler.WriteCell — the
five-argument handler revision that NewServer (src/unnamed/part_024)
constructs with the index registry and that the api tests and
REBALANCING.md exercise — is not among the sources; only its callers,
tests and older revisions are.  Per spec section 4.F the handler resolves
the shard store, calls WriteCell, surfaces DuplicateVersion as a client
error (4xx) and any other storage failure as StorageFailure (500), on
success calls IndexCell on the index registry (index failures are logged
and do not reverse the cell write), hands the cell to the RPC dispatcher,
and returns the stored cell. -/

/-- Outcome of the write API as seen by the client. -/
inductive WriteAPIResult where
  | created (c : Cell)
  | clientError (status : Nat)
  | serverError (status : Nat)

/-- The cell store call as the handler sees it: either the database layer
reports an external fault (connection loss etc., DBErr.otherError — no row
committed) or the pure WriteCell semantics run. -/
def storeWriteCell (s : ShardState) (req : WriteCellRequest) (now : Int)
    (fault : Option DBErr) : ShardState × Except DBErr Cell :=
  match fault with
  | some e => (s, .error e)
  | none => writeCell s req now

/-- Modelled from the spec: CellHandler.WriteCell steps 3-6 of spec
section 4.F (the handler revision absent from the sources).  Duplicate
version maps to HTTP 409 (a 4xx), every other storage failure to 500; on
success IndexCell runs against the registry and its failure does not
reverse the write nor change the response. -/
def handleWriteCell (s : ShardState) (defs : List IndexDefinition)
    (ist : IndexState) (numShards : Nat) (req : WriteCellRequest) (now : Int)
    (fault : Option DBErr) : ShardState × IndexState × WriteAPIResult :=
  match storeWriteCell s req now fault with
  | (s', .error .uniqueViolation) => (s', ist, .clientError 409)
  | (s', .error .otherError) => (s', ist, .serverError 500)
  | (s', .ok c) =>
    let idx := IndexCell defs ist c numShards now
    (s', idx.1, .created c)

/-- C4 (spec-modelled): when the cell write fails because the
(row_key, column_name, ref_key) triple already exists, the write API
returns the DuplicateVersion error as a client error (409, a 4xx), and
any other storage failure is returned as StorageFailure (500). -/
theorem write_api_duplicate_is_client_error
    (s : ShardState) (defs : List IndexDefinition) (ist : IndexState)
    (numShards : Nat) (req : WriteCellRequest) (now : Int)
    (hdup : ∃ c ∈ s.cells, c.rowKey = req.rowKey ∧
      c.columnName = req.columnName ∧ c.refKey = req.refKey) :
    (handleWriteCell s defs ist numShards req now none).2.2
      = .clientError 409 ∧
    (400 ≤ 409 ∧ 409 < 500) ∧
    (∀ e : DBErr, e ≠ .uniqueViolation →
      ∃ status, 500 ≤ status ∧
        (handleWriteCell s defs ist numShards req now (some e)).2.2
          = .serverError status) := by
  refine ⟨?_, ⟨by omega, by omega⟩, ?_⟩
  · unfold handleWriteCell storeWriteCell writeCell
    rw [if_pos hdup]
  · intro e he
    cases e with
    | uniqueViolation => exact absurd rfl he
    | otherError => exact ⟨500, le_rfl, rfl⟩

/-- Witness for C4 at a one-cell shard where the write repeats the stored
triple. -/
theorem write_api_duplicate_witness :
    (∃ c ∈ (ShardState.mk [⟨1, [7], "profile", 1, Json.null, 5⟩] 2).cells,
      c.rowKey = [7] ∧ c.columnName = "profile" ∧ c.refKey = (1 : Int)) ∧
    (handleWriteCell (ShardState.mk [⟨1, [7], "profile", 1, Json.null, 5⟩] 2)
        [] [] 64 ⟨[7], "profile", 1, Json.bool true⟩ 6 none).2.2
      = .clientError 409 :=
  ⟨⟨⟨1, [7], "profile", 1, Json.null, 5⟩, List.mem_singleton.mpr rfl,
     rfl, rfl, rfl⟩,
   (write_api_duplicate_is_client_error
     (ShardState.mk [⟨1, [7], "profile", 1, Json.null, 5⟩] 2) [] [] 64
     ⟨[7], "profile", 1, Json.bool true⟩ 6
     ⟨⟨1, [7], "profile", 1, Json.null, 5⟩, List.mem_singleton.mpr rfl,
      rfl, rfl, rfl⟩).1⟩

theorem stateLookup_update_self (st : IndexState) (name : String) (shard : Nat)
    (t t2 : IndexTable) (h : stateLookup st name shard = some t) :
    stateLookup (stateUpdate st name shard t2) name shard = some t2 := by
  unfold stateLookup stateUpdate at *
  induction st with
  | nil => simp at h
  | cons kv rest ih =>
    rw [List.map_cons, List.find?]
    by_cases hk : kv.1.1 = name ∧ kv.1.2 = shard
    · rw [if_pos hk]
      simp [hk]
    · rw [if_neg hk]
      rw [List.find?] at h
      rw [decide_eq_false hk] at h ⊢
      exact ih h

theorem stateLookup_update_other (st : IndexState) (name name' : String)
    (shard shard' : Nat) (t2 : IndexTable)
    (h : ¬(name' = name ∧ shard' = shard)) :
    stateLookup (stateUpdate st name' shard' t2) name shard
      = stateLookup st name shard := by
  unfold stateLookup stateUpdate
  induction st with
  | nil => rfl
  | cons kv rest ih =>
    rw [List.map_cons, List.find?, List.find?]
    by_cases hk : kv.1.1 = name' ∧ kv.1.2 = shard'
    · rw [if_pos hk]
      have hne : ¬(kv.1.1 = name ∧ kv.1.2 = shard) := by
        intro habs
        exact h ⟨hk.1.symm.trans habs.1, hk.2.symm.trans habs.2⟩
      have h1 : decide ((kv.1, t2).1.1 = name ∧ (kv.1, t2).1.2 = shard) = false :=
        decide_eq_false hne
      rw [h1]
      exact ih
    · rw [if_neg hk]
      by_cases hm : kv.1.1 = name ∧ kv.1.2 = shard
      · rw [decide_eq_true hm]
      · rw [decide_eq_false hm]
        exact ih

theorem writeEntry_entries_mono (d : IndexDefinition) (t : IndexTable)
    (shardKey : String) (rowKey : UUIDBytes) (body : Json) (now : Int)
    {e : Entry} (he : e ∈ t.entries) :
    e ∈ (writeEntry d t shardKey rowKey body now).1.entries := by
  unfold writeEntry
  split
  · exact he
  · simp only [List.mem_append, List.mem_singleton]
    exact Or.inl he

theorem indexCellLoop_cons_step (d : IndexDefinition) (rest : List IndexDefinition)
    (st : IndexState) (c : Cell) (numShards : Nat) (now : Int)
    (skv : String) (bd : Json)
    (hes : extractString c.body d.shardKeyField = .ok skv)
    (hef : extractFields c.body d.fields = .ok bd) :
    indexCellLoop (d :: rest) st c numShards now =
      match stateLookup st d.name (ForKey skv numShards) with
      | none => (st, some "no store for shard")
      | some table =>
        match writeEntry d table skv c.rowKey bd now with
        | (t2, .error e2) =>
          (stateUpdate st d.name (ForKey skv numShards) t2, some e2)
        | (t2, .ok _) =>
          indexCellLoop rest
            (stateUpdate st d.name (ForKey skv numShards) t2) c numShards now := by
  rw [indexCellLoop, hes, hef]

theorem indexCellLoop_cons_es_error (d : IndexDefinition)
    (rest : List IndexDefinition) (st : IndexState) (c : Cell)
    (numShards : Nat) (now : Int) (err : String)
    (hes : extractString c.body d.shardKeyField = .error err) :
    indexCellLoop (d :: rest) st c numShards now = (st, some err) := by
  rw [indexCellLoop, hes]

theorem indexCellLoop_cons_ef_error (d : IndexDefinition)
    (rest : List IndexDefinition) (st : IndexState) (c : Cell)
    (numShards : Nat) (now : Int) (skv : String) (err : String)
    (hes : extractString c.body d.shardKeyField = .ok skv)
    (hef : extractFields c.body d.fields = .error err) :
    indexCellLoop (d :: rest) st c numShards now = (st, some err) := by
  rw [indexCellLoop, hes, hef]

theorem stateUpdate_preserves (st : IndexState) (nm : String) (sh : Nat)
    (t2 : IndexTable) (name : String) (shard : Nat) (t : IndexTable) (e : Entry)
    (hl : stateLookup st name shard = some t) (he : e ∈ t.entries)
    (hsub : (nm = name ∧ sh = shard) →
      stateLookup st nm sh = some t ∧ e ∈ t2.entries) :
    ∃ t3, stateLookup (stateUpdate st nm sh t2) name shard = some t3 ∧
      e ∈ t3.entries := by
  by_cases hk : nm = name ∧ sh = shard
  · obtain ⟨hk1, hk2⟩ := hk
    subst hk1
    subst hk2
    obtain ⟨hl2, he2⟩ := hsub ⟨rfl, rfl⟩
    exact ⟨t2, stateLookup_update_self st nm sh t t2 hl2, he2⟩
  · rw [stateLookup_update_other st name nm shard sh t2 hk]
    exact ⟨t, hl, he⟩

theorem indexCellLoop_entries_mono (defs : List IndexDefinition) :
    ∀ (st : IndexState) (c : Cell) (numShards : Nat) (now : Int)
    (name : String) (shard : Nat) (t : IndexTable) (e : Entry),
    stateLookup st name shard = some t → e ∈ t.entries →
    ∃ t2, stateLookup (indexCellLoop defs st c numShards now).1 name shard
        = some t2 ∧ e ∈ t2.entries := by
  induction defs with
  | nil =>
    intro st c numShards now name shard t e hl he
    exact ⟨t, hl, he⟩
  | cons d rest ih =>
    intro st c numShards now name shard t e hl he
    cases hes : extractString c.body d.shardKeyField with
    | error err =>
      rw [indexCellLoop_cons_es_error d rest st c numShards now err hes]
      exact ⟨t, hl, he⟩
    | ok skv =>
      cases hef : extractFields c.body d.fields with
      | error err =>
        rw [indexCellLoop_cons_ef_error d rest st c numShards now skv err hes hef]
        exact ⟨t, hl, he⟩
      | ok bd =>
        rw [indexCellLoop_cons_step d rest st c numShards now skv bd hes hef]
        cases hsl : stateLookup st d.name (ForKey skv numShards) with
        | none => exact ⟨t, hl, he⟩
        | some table =>
          show ∃ t2, stateLookup
              (match writeEntry d table skv c.rowKey bd now with
               | (t2, .error e2) =>
                 (stateUpdate st d.name (ForKey skv numShards) t2, some e2)
               | (t2, .ok _) =>
                 indexCellLoop rest
                   (stateUpdate st d.name (ForKey skv numShards) t2)
                   c numShards now).1
              name shard = some t2 ∧ e ∈ t2.entries
          cases hw : writeEntry d table skv c.rowKey bd now with
          | mk t2 res =>
            have hsub : (d.name = name ∧ ForKey skv numShards = shard) →
                stateLookup st d.name (ForKey skv numShards) = some t ∧
                e ∈ t2.entries := by
              intro hk
              rw [hk.1, hk.2] at hsl
              rw [hsl] at hl
              have htt : table = t := Option.some.inj hl
              subst htt
              refine ⟨by rw [hk.1, hk.2]; exact hsl, ?_⟩
              have hmono := writeEntry_entries_mono d table skv c.rowKey bd now he
              rw [hw] at hmono
              exact hmono
            cases res with
            | error err2 =>
              exact stateUpdate_preserves st d.name (ForKey skv numShards) t2
                name shard t e hl he hsub
            | ok en =>
              obtain ⟨t3, hl3, he3⟩ := stateUpdate_preserves st d.name
                (ForKey skv numShards) t2 name shard t e hl he hsub
              exact ih _ c numShards now name shard t3 e hl3 he3

theorem writeEntry_ok_shape (d : IndexDefinition) (t : IndexTable)
    (shardKey : String) (rowKey : UUIDBytes) (body : Json) (now : Int)
    (t2 : IndexTable) (en : Entry)
    (hw : writeEntry d t shardKey rowKey body now = (t2, .ok en)) :
    en = ⟨t.nextAdded, shardKey, rowKey, body, now⟩ ∧
    t2.entries = t.entries ++ [⟨t.nextAdded, shardKey, rowKey, body, now⟩] := by
  unfold writeEntry at hw
  split at hw
  · cases hw
  · obtain ⟨h1, h2⟩ := Prod.mk.injEq .. ▸ hw
    cases h2
    exact ⟨rfl, by rw [← h1]⟩

theorem indexCellLoop_ok_all (defs : List IndexDefinition) :
    ∀ (st st' : IndexState) (c : Cell) (numShards : Nat) (now : Int),
    indexCellLoop defs st c numShards now = (st', none) →
    ∀ d ∈ defs, ∃ skv bd,
      extractString c.body d.shardKeyField = .ok skv ∧
      extractFields c.body d.fields = .ok bd ∧
      ∃ t2, stateLookup st' d.name (ForKey skv numShards) = some t2 ∧
        ∃ en ∈ t2.entries, en.shardKey = skv ∧ en.rowKey = c.rowKey ∧
          en.body = bd := by
  induction defs with
  | nil =>
    intro st st' c numShards now _ d hd
    cases hd
  | cons d0 rest ih =>
    intro st st' c numShards now h d hd
    cases hes : extractString c.body d0.shardKeyField with
    | error err =>
      rw [indexCellLoop_cons_es_error d0 rest st c numShards now err hes] at h
      cases h
    | ok skv =>
      cases hef : extractFields c.body d0.fields with
      | error err =>
        rw [indexCellLoop_cons_ef_error d0 rest st c numShards now skv err
          hes hef] at h
        cases h
      | ok bd =>
        rw [indexCellLoop_cons_step d0 rest st c numShards now skv bd hes hef] at h
        rcases hsl : stateLookup st d0.name (ForKey skv numShards) with _ | table
        · rw [hsl] at h
          replace h : (st, (some "no store for shard" : Option String))
              = (st', none) := h
          cases (Prod.mk.injEq .. ▸ h).2
        · rw [hsl] at h
          replace h : (match writeEntry d0 table skv c.rowKey bd now with
            | (t2, .error e2) =>
              (stateUpdate st d0.name (ForKey skv numShards) t2, some e2)
            | (t2, .ok _) =>
              indexCellLoop rest
                (stateUpdate st d0.name (ForKey skv numShards) t2)
                c numShards now) = (st', none) := h
          cases hw : writeEntry d0 table skv c.rowKey bd now with
          | mk t2 res =>
            rw [hw] at h
            cases res with
            | error err2 =>
              replace h : (stateUpdate st d0.name (ForKey skv numShards) t2,
                  (some err2 : Option String)) = (st', none) := h
              cases (Prod.mk.injEq .. ▸ h).2
            | ok en =>
              replace h : indexCellLoop rest
                  (stateUpdate st d0.name (ForKey skv numShards) t2)
                  c numShards now = (st', none) := h
              obtain ⟨hen, hent⟩ := writeEntry_ok_shape d0 table skv c.rowKey
                bd now t2 en hw
              have hupd := stateLookup_update_self st d0.name
                (ForKey skv numShards) table t2 hsl
              rcases List.mem_cons.mp hd with rfl | hd'
              · refine ⟨skv, bd, hes, hef, ?_⟩
                obtain ⟨t3, hl3, he3⟩ := indexCellLoop_entries_mono rest
                  (stateUpdate st d.name (ForKey skv numShards) t2) c
                  numShards now d.name (ForKey skv numShards) t2
                  ⟨table.nextAdded, skv, c.rowKey, bd, now⟩ hupd
                  (by rw [hent]; simp)
                rw [h] at hl3
                exact ⟨t3, hl3,
                  ⟨table.nextAdded, skv, c.rowKey, bd, now⟩, he3, rfl, rfl, rfl⟩
              · exact ih (stateUpdate st d0.name (ForKey skv numShards) t2)
                  st' c numShards now h d hd'

/-- C5 (the coordinator is spec-modelled, IndexCell is translated from the
source): for every accepted cell write, after the cell-store write succeeds
the handler calls IndexCell on the index registry, so — whenever the index
pass reports no error — every definition whose source_column equals the
written cell's column_name has received a denormalized entry (with the
extracted shard key, the source row_key back-pointer and the projected
body) in the index store for shard ForKey(shard_key); and regardless of
the index outcome the stored cell stays in the cell store and the response
is the stored cell (an index failure does not reverse the cell write). -/
theorem write_path_indexes_matching_definitions
    (s : ShardState) (defs : List IndexDefinition) (ist : IndexState)
    (numShards : Nat) (req : WriteCellRequest) (now : Int)
    (s' : ShardState) (c : Cell)
    (hok : writeCell s req now = (s', .ok c)) :
    (handleWriteCell s defs ist numShards req now none).1 = s' ∧
    c ∈ (handleWriteCell s defs ist numShards req now none).1.cells ∧
    (handleWriteCell s defs ist numShards req now none).2.2 = .created c ∧
    (handleWriteCell s defs ist numShards req now none).2.1
      = (IndexCell defs ist c numShards now).1 ∧
    ((IndexCell defs ist c numShards now).2 = none →
      ∀ d ∈ defs, d.sourceColumn = c.columnName →
        ∃ skv bd, extractString c.body d.shardKeyField = .ok skv ∧
          extractFields c.body d.fields = .ok bd ∧
          ∃ t2, stateLookup (IndexCell defs ist c numShards now).1
              d.name (ForKey skv numShards) = some t2 ∧
            ∃ en ∈ t2.entries, en.shardKey = skv ∧ en.rowKey = c.rowKey ∧
              en.body = bd) := by
  have hhandler : handleWriteCell s defs ist numShards req now none
      = (s', (IndexCell defs ist c numShards now).1, .created c) := by
    unfold handleWriteCell storeWriteCell
    rw [hok]
  obtain ⟨hc, hcells⟩ := writeCell_ok_shape s req now s' c hok
  refine ⟨by rw [hhandler], ?_, by rw [hhandler], by rw [hhandler], ?_⟩
  · rw [hhandler]
    show c ∈ s'.cells
    rw [hcells, hc]
    simp
  · intro hnone d hd hcol
    have hmem : d ∈ defs.filter fun d => d.sourceColumn = c.columnName := by
      rw [List.mem_filter]
      exact ⟨hd, decide_eq_true hcol⟩
    have hpair : indexCellLoop (defs.filter fun d => d.sourceColumn = c.columnName)
        ist c numShards now
        = ((IndexCell defs ist c numShards now).1, none) := by
      unfold IndexCell at hnone ⊢
      rw [Prod.ext_iff]
      exact ⟨rfl, hnone⟩
    exact indexCellLoop_ok_all _ ist _ c numShards now hpair d hmem

/-- Witness for C5: a concrete profile write against a fresh shard with the
user_by_email index registered; the write succeeds and the theorem applies. -/
theorem write_path_indexes_witness :
    writeCell emptyShard
      ⟨[7], "profile", 1,
        Json.obj [("email", Json.str "a@b"), ("display_name", Json.str "A")]⟩ 5
      = (⟨[⟨1, [7], "profile", 1,
            Json.obj [("email", Json.str "a@b"), ("display_name", Json.str "A")],
            5⟩], 2⟩,
         .ok ⟨1, [7], "profile", 1,
            Json.obj [("email", Json.str "a@b"), ("display_name", Json.str "A")],
            5⟩) ∧
    (handleWriteCell emptyShard
        [⟨"user_by_email", "profile", "email", ["email", "display_name"],
          ["email"]⟩]
        [(("user_by_email", ForKey "a@b" 64), ⟨[], 1⟩)] 64
        ⟨[7], "profile", 1,
          Json.obj [("email", Json.str "a@b"), ("display_name", Json.str "A")]⟩
        5 none).1
      = ⟨[⟨1, [7], "profile", 1,
            Json.obj [("email", Json.str "a@b"), ("display_name", Json.str "A")],
            5⟩], 2⟩ ∧
    (⟨1, [7], "profile", 1,
        Json.obj [("email", Json.str "a@b"), ("display_name", Json.str "A")],
        5⟩ : Cell) ∈
      (handleWriteCell emptyShard
        [⟨"user_by_email", "profile", "email", ["email", "display_name"],
          ["email"]⟩]
        [(("user_by_email", ForKey "a@b" 64), ⟨[], 1⟩)] 64
        ⟨[7], "profile", 1,
          Json.obj [("email", Json.str "a@b"), ("display_name", Json.str "A")]⟩
        5 none).1.cells :=
  ⟨rfl,
   (write_path_indexes_matching_definitions emptyShard
     [⟨"user_by_email", "profile", "email", ["email", "display_name"],
       ["email"]⟩]
     [(("user_by_email", ForKey "a@b" 64), ⟨[], 1⟩)] 64
     ⟨[7], "profile", 1,
       Json.obj [("email", Json.str "a@b"), ("display_name", Json.str "A")]⟩
     5 _ _ rfl).1,
   (write_path_indexes_matching_definitions emptyShard
     [⟨"user_by_email", "profile", "email", ["email", "display_name"],
       ["email"]⟩]
     [(("user_by_email", ForKey "a@b" 64), ⟨[], 1⟩)] 64
     ⟨[7], "profile", 1,
       Json.obj [("email", Json.str "a@b"), ("display_name", Json.str "A")]⟩
     5 _ _ rfl).2.1⟩

/-! ## Cursor encoding (internal/storage, src/unnamed/part_008)

Cursor.Encode is json.Marshal followed by base64.URLEncoding.EncodeToString;
DecodeCursor is base64.URLEncoding.DecodeString followed by json.Unmarshal
into the two-field struct (both fields omitempty).  The byte/string
boundary is modeled with an explicit UTF-8 codec (Go strings here are
valid UTF-8; json.Unmarshal of bytes that are not valid UTF-8 inside a
string literal would substitute U+FFFD in Go, which this model reports as
an error instead — only such foreign inputs differ).  Recursive helpers
take an explicit fuel argument so that they reduce definitionally; callers
pass a fuel that exceeds the input length, which can never run out. -/

/-- Cursor from internal/storage (added_id int64, created_at string). -/
structure Cursor where
  AddedID : Int
  CreatedAt : String
deriving DecidableEq

/-- UTF-8 decoding of one code point: the leading byte classifies the
length; continuation bytes are 10xxxxxx; overlong encodings, surrogates
and values above U+10FFFF are rejected. -/
def utf8DecodeOne : List Nat → Option (Char × List Nat)
  | [] => none
  | b :: rest =>
    if b < 128 then some (Char.ofNat b, rest)
    else if b < 192 then none
    else if b < 224 then
      match rest with
      | b1 :: rest1 =>
        if (128 ≤ b1 ∧ b1 < 192) ∧
            (128 ≤ (b - 192) * 64 + (b1 - 128)) then
          some (Char.ofNat ((b - 192) * 64 + (b1 - 128)), rest1)
        else none
      | [] => none
    else if b < 240 then
      match rest with
      | b1 :: b2 :: rest1 =>
        if (128 ≤ b1 ∧ b1 < 192) ∧ (128 ≤ b2 ∧ b2 < 192) ∧
            (2048 ≤ (b - 224) * 4096 + (b1 - 128) * 64 + (b2 - 128)) ∧
            ¬(55296 ≤ (b - 224) * 4096 + (b1 - 128) * 64 + (b2 - 128) ∧
              (b - 224) * 4096 + (b1 - 128) * 64 + (b2 - 128) < 57344) then
          some (Char.ofNat ((b - 224) * 4096 + (b1 - 128) * 64 + (b2 - 128)),
            rest1)
        else none
      | _ => none
    else if b < 248 then
      match rest with
      | b1 :: b2 :: b3 :: rest1 =>
        if (128 ≤ b1 ∧ b1 < 192) ∧ (128 ≤ b2 ∧ b2 < 192) ∧
            (128 ≤ b3 ∧ b3 < 192) ∧
            (65536 ≤ (b - 240) * 262144 + (b1 - 128) * 4096 +
              (b2 - 128) * 64 + (b3 - 128)) ∧
            ((b - 240) * 262144 + (b1 - 128) * 4096 + (b2 - 128) * 64 +
              (b3 - 128) < 1114112) then
          some (Char.ofNat ((b - 240) * 262144 + (b1 - 128) * 4096 +
            (b2 - 128) * 64 + (b3 - 128)), rest1)
        else none
      | _ => none
    else none

/-- Decode a whole byte sequence (fuel-indexed; fuel above the length can
never run out). -/
def utf8DecodeAux : Nat → List Nat → Option (List Char)
  | _, [] => some []
  | 0, _ :: _ => none
  | fuel + 1, b :: rest =>
    match utf8DecodeOne (b :: rest) with
    | none => none
    | some cr => (utf8DecodeAux fuel cr.2).map (cr.1 :: ·)

/-- The Go string([]byte) conversion combined with the JSON layer's UTF-8
expectations: decode the bytes or report invalidity. -/
def utf8Decode (bs : List Nat) : Option String :=
  (utf8DecodeAux (bs.length + 1) bs).map fun cs => ⟨cs⟩

/-- The URL-safe base64 alphabet (RFC 4648): A-Z a-z 0-9 - _. -/
def b64Char (n : Nat) : Char :=
  if n < 26 then Char.ofNat (65 + n)
  else if n < 52 then Char.ofNat (97 + (n - 26))
  else if n < 62 then Char.ofNat (48 + (n - 52))
  else if n = 62 then Char.ofNat 45
  else Char.ofNat 95

/-- Inverse of the URL-safe alphabet. -/
def b64Index (c : Char) : Option Nat :=
  let v := c.toNat
  if 65 ≤ v ∧ v ≤ 90 then some (v - 65)
  else if 97 ≤ v ∧ v ≤ 122 then some (26 + (v - 97))
  else if 48 ≤ v ∧ v ≤ 57 then some (52 + (v - 48))
  else if v = 45 then some 62
  else if v = 95 then some 63
  else none

/-- base64.URLEncoding.EncodeToString: 3-byte groups to 4 characters, with
padding for the final 1- or 2-byte group. -/
def base64Chars : List Nat → List Char
  | [] => []
  | [b0] => [b64Char (b0 / 4), b64Char (b0 % 4 * 16), Char.ofNat 61,
             Char.ofNat 61]
  | [b0, b1] => [b64Char (b0 / 4), b64Char (b0 % 4 * 16 + b1 / 16),
                 b64Char (b1 % 16 * 4), Char.ofNat 61]
  | b0 :: b1 :: b2 :: rest =>
    b64Char (b0 / 4) :: b64Char (b0 % 4 * 16 + b1 / 16) ::
    b64Char (b1 % 16 * 4 + b2 / 64) :: b64Char (b2 % 64) :: base64Chars rest

/-- base64.URLEncoding.EncodeToString as a string. -/
def base64urlEncode (bs : List Nat) : String := ⟨base64Chars bs⟩

/-- base64.URLEncoding.DecodeString (padded mode): 4-character groups, '='
padding only at the very end, any non-alphabet character is corrupt input.
Trailing bits of the final group are not checked (Go's non-Strict mode). -/
def base64Dec : List Char → Option (List Nat)
  | [] => some []
  | c0 :: c1 :: c2 :: c3 :: rest =>
    match b64Index c0, b64Index c1 with
    | some v0, some v1 =>
      if c2 = Char.ofNat 61 then
        if c3 = Char.ofNat 61 ∧ rest = [] then some [v0 * 4 + v1 / 16]
        else none
      else
        match b64Index c2 with
        | some v2 =>
          if c3 = Char.ofNat 61 then
            if rest = [] then some [v0 * 4 + v1 / 16, v1 % 16 * 16 + v2 / 4]
            else none
          else
            match b64Index c3 with
            | some v3 =>
              (base64Dec rest).map fun tl =>
                (v0 * 4 + v1 / 16) :: (v1 % 16 * 16 + v2 / 4) ::
                (v2 % 4 * 64 + v3) :: tl
            | none => none
        | none => none
    | _, _ => none
  | _ => none

/-- base64.URLEncoding.DecodeString: Go's decoder skips newline characters
before decoding; any other deviation is a CorruptInputError. -/
def base64urlDecode (s : String) : Except String (List Nat) :=
  match base64Dec (s.data.filter fun c =>
      !decide (c = Char.ofNat 13 ∨ c = Char.ofNat 10)) with
  | none => .error "illegal base64 data"
  | some bs => .ok bs

/-- Decimal digit character. -/
def digitChar (d : Nat) : Char := Char.ofNat (48 + d)

/-- Decimal printing of a natural number (fuel-indexed; fuel above the
value can never run out). -/
def natDecimalAux : Nat → Nat → List Char → List Char
  | 0, _, acc => acc
  | fuel + 1, n, acc =>
    if n < 10 then digitChar n :: acc
    else natDecimalAux fuel (n / 10) (digitChar (n % 10) :: acc)

/-- Decimal digits of a natural number, most significant first. -/
def natDecimal (n : Nat) : List Char := natDecimalAux (n + 1) n []

/-- Decimal printing of an int64 as json.Marshal emits it. -/
def intDecimal (i : Int) : List Char :=
  if i < 0 then Char.ofNat 45 :: natDecimal (-i).toNat
  else natDecimal i.toNat

/-- Value of a nonempty all-digits character list. -/
def digitsVal (cs : List Char) : Option Nat :=
  if cs.isEmpty then none
  else if cs.all fun c => decide (48 ≤ c.toNat ∧ c.toNat ≤ 57) then
    some (cs.foldl (fun acc c => acc * 10 + (c.toNat - 48)) 0)
  else none

/-- strconv.ParseInt base 10 into int64, as used when a JSON number is
decoded into an int64 field: an optional sign, decimal digits only, and
the int64 range check. -/
def parseInt64 (cs : List Char) : Option Int :=
  match cs with
  | [] => none
  | c :: rest =>
    if c = Char.ofNat 45 then
      (digitsVal rest).bind fun n =>
        if n ≤ 9223372036854775808 then some (-(n : Int)) else none
    else if c = Char.ofNat 43 then
      (digitsVal rest).bind fun n =>
        if n ≤ 9223372036854775807 then some ((n : Int)) else none
    else
      (digitsVal cs).bind fun n =>
        if n ≤ 9223372036854775807 then some ((n : Int)) else none

/-- Lowercase hex digit as encoding/json emits in \u escapes. -/
def hexDigit (d : Nat) : Char :=
  if d < 10 then Char.ofNat (48 + d) else Char.ofNat (87 + d)

/-- Value of a hex digit character (either case), for \uXXXX escapes. -/
def hexVal (c : Char) : Option Nat :=
  let v := c.toNat
  if 48 ≤ v ∧ v ≤ 57 then some (v - 48)
  else if 97 ≤ v ∧ v ≤ 102 then some (v - 87)
  else if 65 ≤ v ∧ v ≤ 70 then some (v - 55)
  else none

/-- encoding/json string escaping (HTML-escaping encoder, the default used
by json.Marshal): quote and backslash get a backslash; newline, carriage
return and tab get their short escapes; other control characters and the
HTML characters angle brackets and ampersand become \u00XX with lowercase
hex; U+2028 and U+2029 become   and  ; everything else is
emitted literally. -/
def goEscapeChar (c : Char) : List Char :=
  let v := c.toNat
  if v = 34 then [Char.ofNat 92, Char.ofNat 34]
  else if v = 92 then [Char.ofNat 92, Char.ofNat 92]
  else if v = 10 then [Char.ofNat 92, Char.ofNat 110]
  else if v = 13 then [Char.ofNat 92, Char.ofNat 114]
  else if v = 9 then [Char.ofNat 92, Char.ofNat 116]
  else if v < 32 ∨ v = 60 ∨ v = 62 ∨ v = 38 then
    [Char.ofNat 92, Char.ofNat 117, Char.ofNat 48, Char.ofNat 48,
     hexDigit (v / 16), hexDigit (v % 16)]
  else if v = 8232 ∨ v = 8233 then
    [Char.ofNat 92, Char.ofNat 117, Char.ofNat 50, Char.ofNat 48,
     hexDigit (v / 16 % 16), hexDigit (v % 16)]
  else [c]

/-- A JSON string literal for s: quote, escaped characters, quote. -/
def goQuote (s : String) : List Char :=
  Char.ofNat 34 :: (s.data.flatMap goEscapeChar ++ [Char.ofNat 34])

/-- json.Marshal of the Cursor struct: both fields carry omitempty, so a
zero added_id and an empty created_at are omitted; the field order is the
struct order. -/
def jsonMarshalCursor (c : Cursor) : List Char :=
  Char.ofNat 123 ::
    ((if c.AddedID = 0 then [] else
        ("\"added_id\":".data ++ intDecimal c.AddedID)) ++
     ((if c.CreatedAt = "" then [] else
        ((if c.AddedID = 0 then [] else [Char.ofNat 44]) ++
         ("\"created_at\":".data ++ goQuote c.CreatedAt))) ++
      [Char.ofNat 125]))

/-- JSON whitespace. -/
def isWS (c : Char) : Bool :=
  decide (c.toNat = 32 ∨ c.toNat = 9 ∨ c.toNat = 10 ∨ c.toNat = 13)

/-- Skip insignificant whitespace. -/
def skipWS (cs : List Char) : List Char := cs.dropWhile isWS

/-- Short escape decoding for JSON strings. -/
def escChar (e : Char) : Option Char :=
  if e = Char.ofNat 34 then some (Char.ofNat 34)
  else if e = Char.ofNat 92 then some (Char.ofNat 92)
  else if e = Char.ofNat 47 then some (Char.ofNat 47)
  else if e = Char.ofNat 98 then some (Char.ofNat 8)
  else if e = Char.ofNat 102 then some (Char.ofNat 12)
  else if e = Char.ofNat 110 then some (Char.ofNat 10)
  else if e = Char.ofNat 114 then some (Char.ofNat 13)
  else if e = Char.ofNat 116 then some (Char.ofNat 9)
  else none

/-- Body of a JSON string literal after the opening quote: plain characters
up to the closing quote, short escapes, and \uXXXX (a lone surrogate value
is rejected in this model); raw control characters are invalid.  Fuel above
the input length can never run out. -/
def parseStringBody : Nat → List Char → Option (List Char × List Char)
  | _, [] => none
  | 0, _ :: _ => none
  | fuel + 1, c :: rest =>
    if c = Char.ofNat 34 then some ([], rest)
    else if c = Char.ofNat 92 then
      match rest with
      | [] => none
      | e :: rest1 =>
        if e = Char.ofNat 117 then
          match rest1 with
          | h1 :: h2 :: h3 :: h4 :: rest2 =>
            match hexVal h1, hexVal h2, hexVal h3, hexVal h4 with
            | some v1, some v2, some v3, some v4 =>
              if 55296 ≤ ((v1 * 16 + v2) * 16 + v3) * 16 + v4 ∧
                  ((v1 * 16 + v2) * 16 + v3) * 16 + v4 < 57344 then none
              else
                (parseStringBody fuel rest2).map fun pr =>
                  (Char.ofNat (((v1 * 16 + v2) * 16 + v3) * 16 + v4) :: pr.1,
                   pr.2)
            | _, _, _, _ => none
          | _ => none
        else
          match escChar e with
          | some ec => (parseStringBody fuel rest1).map fun pr =>
              (ec :: pr.1, pr.2)
          | none => none
    else if c.toNat < 32 then none
    else (parseStringBody fuel rest).map fun pr => (c :: pr.1, pr.2)

/-- Digit test for the number lexer. -/
def isDigit (c : Char) : Bool := decide (48 ≤ c.toNat ∧ c.toNat ≤ 57)

/-- Lex a JSON number(-?(0|[1-9][0-9]*)(.[0-9]+)?([eE][+-]?[0-9]+)?),
returning the lexeme and the remaining input. -/
def lexNumber (cs : List Char) : Option (List Char × List Char) :=
  let (neg, cs1) :=
    match cs with
    | c :: rest => if c = Char.ofNat 45 then ([c], rest) else ([], cs)
    | [] => ([], [])
  match cs1 with
  | [] => none
  | c :: rest =>
    if ¬(isDigit c = true) then none
    else
      let (ipart, cs2) :=
        if c = Char.ofNat 48 then ([c], rest)
        else (c :: rest.takeWhile isDigit, rest.dropWhile isDigit)
      let (fpart, cs3) :=
        match cs2 with
        | d :: rest2 =>
          if d = Char.ofNat 46 then
            match rest2 with
            | d2 :: _ =>
              if isDigit d2 then
                (d :: rest2.takeWhile isDigit, rest2.dropWhile isDigit)
              else ([], cs2)
            | [] => ([], cs2)
          else ([], cs2)
        | [] => ([], cs2)
      if fpart.isEmpty ∧ ¬(cs3 = cs2) then none
      else
        let (epart, cs4) :=
          match cs3 with
          | e :: rest3 =>
            if e = Char.ofNat 101 ∨ e = Char.ofNat 69 then
              let (sgn, rest4) :=
                match rest3 with
                | sc :: rest5 =>
                  if sc = Char.ofNat 43 ∨ sc = Char.ofNat 45 then ([sc], rest5)
                  else ([], rest3)
                | [] => ([], rest3)
              match rest4 with
              | d3 :: _ =>
                if isDigit d3 then
                  (e :: (sgn ++ rest4.takeWhile isDigit),
                   rest4.dropWhile isDigit)
                else ([], cs3)
              | [] => ([], cs3)
            else ([], cs3)
          | [] => ([], cs3)
        some (neg ++ ipart ++ fpart ++ epart, cs4)

/-- The JSON value parser as one fuel-indexed function (kept single so it
reduces definitionally).  mode 0 parses a value; mode 1 parses the members
of an object up to the closing brace, returning them as Json.obj; mode 2
parses the elements of an array up to the closing bracket, returning them
as Json.arr.  Fuel above the input length can never run out. -/
def parseCore : Nat → Nat → List Char → Option (Json × List Char)
  | 0, _, _ => none
  | fuel + 1, mode, cs =>
    if mode = 0 then
      match skipWS cs with
      | [] => none
      | c :: rest =>
        if c = Char.ofNat 34 then
          (parseStringBody (rest.length + 1) rest).map fun pr =>
            (.str ⟨pr.1⟩, pr.2)
        else if c = Char.ofNat 123 then
          match skipWS rest with
          | [] => none
          | c2 :: rest2 =>
            if c2 = Char.ofNat 125 then some (.obj [], rest2)
            else parseCore fuel 1 rest
        else if c = Char.ofNat 91 then
          match skipWS rest with
          | [] => none
          | c2 :: rest2 =>
            if c2 = Char.ofNat 93 then some (.arr [], rest2)
            else parseCore fuel 2 rest
        else if c = Char.ofNat 116 then
          if rest.take 3 = [Char.ofNat 114, Char.ofNat 117, Char.ofNat 101] then
            some (.bool true, rest.drop 3)
          else none
        else if c = Char.ofNat 102 then
          if rest.take 4 = [Char.ofNat 97, Char.ofNat 108, Char.ofNat 115,
              Char.ofNat 101] then
            some (.bool false, rest.drop 4)
          else none
        else if c = Char.ofNat 110 then
          if rest.take 3 = [Char.ofNat 117, Char.ofNat 108, Char.ofNat 108] then
            some (.null, rest.drop 3)
          else none
        else
          (lexNumber (c :: rest)).map fun pr => (.num ⟨pr.1⟩, pr.2)
    else if mode = 1 then
      match skipWS cs with
      | [] => none
      | c :: rest =>
        if c = Char.ofNat 34 then
          (parseStringBody (rest.length + 1) rest).bind fun kr =>
            match skipWS kr.2 with
            | c2 :: rest2 =>
              if c2 = Char.ofNat 58 then
                (parseCore fuel 0 rest2).bind fun vr =>
                  match skipWS vr.2 with
                  | c3 :: rest3 =>
                    if c3 = Char.ofNat 44 then
                      (parseCore fuel 1 rest3).bind fun mr =>
                        match mr.1 with
                        | .obj flds =>
                          some (.obj ((⟨kr.1⟩, vr.1) :: flds), mr.2)
                        | _ => none
                    else if c3 = Char.ofNat 125 then
                      some (.obj [(⟨kr.1⟩, vr.1)], rest3)
                    else none
                  | [] => none
              else none
            | [] => none
        else none
    else
      (parseCore fuel 0 cs).bind fun vr =>
        match skipWS vr.2 with
        | c :: rest =>
          if c = Char.ofNat 44 then
            (parseCore fuel 2 rest).bind fun er =>
              match er.1 with
              | .arr es => some (.arr (vr.1 :: es), er.2)
              | _ => none
          else if c = Char.ofNat 93 then some (.arr [vr.1], rest)
          else none
        | [] => none

/-- Parse one JSON value with the given fuel. -/
def parseValue (fuel : Nat) (cs : List Char) : Option (Json × List Char) :=
  parseCore fuel 0 cs

/-- json.Unmarshal's syntax phase: one value, then only whitespace may
remain. -/
def jsonParse (cs : List Char) : Except String Json :=
  match parseValue (cs.length + 1) cs with
  | none => .error "invalid json"
  | some (j, rest) =>
    if (skipWS rest).isEmpty then .ok j else .error "trailing data"

/-- json.Unmarshal of a JSON document into the Cursor struct: null is a
no-op (zero cursor), an object assigns the two known fields (a null field
value is a no-op, a wrong type is an error, later duplicates win, unknown
fields are ignored), and any other document is a type error. -/
def cursorFromJson : Json → Except String Cursor
  | .null => .ok ⟨0, ""⟩
  | .obj fields =>
    fields.foldl
      (fun acc kv =>
        match acc with
        | .error e => .error e
        | .ok cur =>
          if kv.1 = "added_id" then
            match kv.2 with
            | .null => .ok cur
            | .num lex =>
              match parseInt64 lex.data with
              | some n => .ok { cur with AddedID := n }
              | none => .error "cannot unmarshal number into int64 field"
            | _ => .error "cannot unmarshal value into int64 field"
          else if kv.1 = "created_at" then
            match kv.2 with
            | .null => .ok cur
            | .str s => .ok { cur with CreatedAt := s }
            | _ => .error "cannot unmarshal value into string field"
          else .ok cur)
      (.ok ⟨0, ""⟩)
  | _ => .error "cannot unmarshal value into Cursor"

instance {ε α : Type} [DecidableEq ε] [DecidableEq α] :
    DecidableEq (Except ε α) := fun x y =>
  match x, y with
  | .error e1, .error e2 =>
    if h : e1 = e2 then isTrue (h ▸ rfl)
    else isFalse fun hh => h (Except.error.inj hh)
  | .ok a1, .ok a2 =>
    if h : a1 = a2 then isTrue (h ▸ rfl)
    else isFalse fun hh => h (Except.ok.inj hh)
  | .error _, .ok _ => isFalse fun hh => Except.noConfusion hh
  | .ok _, .error _ => isFalse fun hh => Except.noConfusion hh

/-- Cursor.Encode: json.Marshal (which cannot fail on this struct) then
base64.URLEncoding.EncodeToString of the marshaled bytes. -/
def cursorEncode (c : Cursor) : String :=
  base64urlEncode ((jsonMarshalCursor c).flatMap utf8EncodeChar)

/-- DecodeCursor: base64-decode, then json.Unmarshal into the struct. -/
def DecodeCursor (s : String) : Except String Cursor :=
  match base64urlDecode s with
  | .error e => .error e
  | .ok bytes =>
    match utf8Decode bytes with
    | none => .error "invalid utf-8 in cursor"
    | some text =>
      match jsonParse text.data with
      | .error e => .error e
      | .ok j => cursorFromJson j

theorem toNat_ofNat_valid (n : Nat)
    (h : n < 55296 ∨ (57343 < n ∧ n < 1114112)) :
    (Char.ofNat n).toNat = n := by
  have hv : n.isValidChar := by
    unfold Nat.isValidChar
    omega
  rw [Char.ofNat, dif_pos hv]
  simp [Char.ofNatAux, Char.toNat, UInt32.toNat, UInt32.ofNatCore]

theorem char_valid (c : Char) :
    c.toNat < 55296 ∨ (57343 < c.toNat ∧ c.toNat < 1114112) := by
  have := c.valid
  unfold UInt32.isValidChar Nat.isValidChar at this
  rcases this with h | h
  · left
    exact h
  · right
    exact h

theorem char_eq_ofNat_iff (c : Char) (n : Nat)
    (h : n < 55296 ∨ (57343 < n ∧ n < 1114112)) :
    c = Char.ofNat n ↔ c.toNat = n := by
  constructor
  · rintro rfl
    exact toNat_ofNat_valid n h
  · intro h2
    rw [← h2, Char.ofNat_toNat]

theorem utf8EncodeChar_ne_nil (c : Char) : utf8EncodeChar c ≠ [] := by
  unfold utf8EncodeChar
  by_cases h1 : c.toNat < 128
  · rw [if_pos h1]
    exact List.cons_ne_nil _ _
  · rw [if_neg h1]
    by_cases h2 : c.toNat < 2048
    · rw [if_pos h2]
      exact List.cons_ne_nil _ _
    · rw [if_neg h2]
      by_cases h3 : c.toNat < 65536
      · rw [if_pos h3]
        exact List.cons_ne_nil _ _
      · rw [if_neg h3]
        exact List.cons_ne_nil _ _

theorem utf8DecodeOne_encode (c : Char) (rest : List Nat) :
    utf8DecodeOne (utf8EncodeChar c ++ rest) = some (c, rest) := by
  have hv := char_valid c
  by_cases h1 : c.toNat < 128
  · have he : utf8EncodeChar c = [c.toNat] := by
      unfold utf8EncodeChar
      rw [if_pos h1]
    rw [he]
    show utf8DecodeOne (c.toNat :: rest) = some (c, rest)
    simp only [utf8DecodeOne]
    rw [if_pos h1, Char.ofNat_toNat]
  · by_cases h2 : c.toNat < 2048
    · have he : utf8EncodeChar c = [192 + c.toNat / 64, 128 + c.toNat % 64] := by
        unfold utf8EncodeChar
        rw [if_neg h1, if_pos h2]
      rw [he]
      show utf8DecodeOne ((192 + c.toNat / 64) :: (128 + c.toNat % 64) :: rest) =
        some (c, rest)
      simp only [utf8DecodeOne]
      rw [if_neg (by omega), if_neg (by omega), if_pos (by omega)]
      show (if (128 ≤ 128 + c.toNat % 64 ∧ 128 + c.toNat % 64 < 192) ∧
          (128 ≤ (192 + c.toNat / 64 - 192) * 64 + (128 + c.toNat % 64 - 128))
          then some (Char.ofNat ((192 + c.toNat / 64 - 192) * 64 +
            (128 + c.toNat % 64 - 128)), rest)
          else none) = some (c, rest)
      rw [if_pos (by omega)]
      have harith : (192 + c.toNat / 64 - 192) * 64 + (128 + c.toNat % 64 - 128)
          = c.toNat := by omega
      rw [harith, Char.ofNat_toNat]
    · by_cases h3 : c.toNat < 65536
      · have he : utf8EncodeChar c =
            [224 + c.toNat / 4096, 128 + (c.toNat / 64) % 64, 128 + c.toNat % 64] := by
          unfold utf8EncodeChar
          rw [if_neg h1, if_neg h2, if_pos h3]
        rw [he]
        show utf8DecodeOne ((224 + c.toNat / 4096) :: (128 + (c.toNat / 64) % 64) ::
          (128 + c.toNat % 64) :: rest) = some (c, rest)
        simp only [utf8DecodeOne]
        rw [if_neg (by omega), if_neg (by omega), if_neg (by omega),
          if_pos (by omega)]
        show (if (128 ≤ 128 + (c.toNat / 64) % 64 ∧ 128 + (c.toNat / 64) % 64 < 192) ∧
            (128 ≤ 128 + c.toNat % 64 ∧ 128 + c.toNat % 64 < 192) ∧
            (2048 ≤ (224 + c.toNat / 4096 - 224) * 4096 +
              (128 + (c.toNat / 64) % 64 - 128) * 64 + (128 + c.toNat % 64 - 128)) ∧
            ¬(55296 ≤ (224 + c.toNat / 4096 - 224) * 4096 +
              (128 + (c.toNat / 64) % 64 - 128) * 64 + (128 + c.toNat % 64 - 128) ∧
              (224 + c.toNat / 4096 - 224) * 4096 +
              (128 + (c.toNat / 64) % 64 - 128) * 64 + (128 + c.toNat % 64 - 128)
                < 57344)
            then some (Char.ofNat ((224 + c.toNat / 4096 - 224) * 4096 +
              (128 + (c.toNat / 64) % 64 - 128) * 64 + (128 + c.toNat % 64 - 128)),
              rest)
            else none) = some (c, rest)
        rw [if_pos (by omega)]
        have harith : (224 + c.toNat / 4096 - 224) * 4096 +
            (128 + (c.toNat / 64) % 64 - 128) * 64 + (128 + c.toNat % 64 - 128)
            = c.toNat := by omega
        rw [harith, Char.ofNat_toNat]
      · have he : utf8EncodeChar c =
            [240 + c.toNat / 262144, 128 + (c.toNat / 4096) % 64,
             128 + (c.toNat / 64) % 64, 128 + c.toNat % 64] := by
          unfold utf8EncodeChar
          rw [if_neg h1, if_neg h2, if_neg h3]
        rw [he]
        show utf8DecodeOne ((240 + c.toNat / 262144) :: (128 + (c.toNat / 4096) % 64) ::
          (128 + (c.toNat / 64) % 64) :: (128 + c.toNat % 64) :: rest) = some (c, rest)
        simp only [utf8DecodeOne]
        rw [if_neg (by omega), if_neg (by omega), if_neg (by omega),
          if_neg (by omega), if_pos (by omega)]
        show (if (128 ≤ 128 + (c.toNat / 4096) % 64 ∧ 128 + (c.toNat / 4096) % 64 < 192) ∧
            (128 ≤ 128 + (c.toNat / 64) % 64 ∧ 128 + (c.toNat / 64) % 64 < 192) ∧
            (128 ≤ 128 + c.toNat % 64 ∧ 128 + c.toNat % 64 < 192) ∧
            (65536 ≤ (240 + c.toNat / 262144 - 240) * 262144 +
              (128 + (c.toNat / 4096) % 64 - 128) * 4096 +
              (128 + (c.toNat / 64) % 64 - 128) * 64 + (128 + c.toNat % 64 - 128)) ∧
            ((240 + c.toNat / 262144 - 240) * 262144 +
              (128 + (c.toNat / 4096) % 64 - 128) * 4096 +
              (128 + (c.toNat / 64) % 64 - 128) * 64 + (128 + c.toNat % 64 - 128)
              < 1114112)
            then some (Char.ofNat ((240 + c.toNat / 262144 - 240) * 262144 +
              (128 + (c.toNat / 4096) % 64 - 128) * 4096 +
              (128 + (c.toNat / 64) % 64 - 128) * 64 + (128 + c.toNat % 64 - 128)),
              rest)
            else none) = some (c, rest)
        rw [if_pos (by omega)]
        have harith : (240 + c.toNat / 262144 - 240) * 262144 +
            (128 + (c.toNat / 4096) % 64 - 128) * 4096 +
            (128 + (c.toNat / 64) % 64 - 128) * 64 + (128 + c.toNat % 64 - 128)
            = c.toNat := by omega
        rw [harith, Char.ofNat_toNat]

theorem utf8DecodeAux_encode : ∀ (cs : List Char) (fuel : Nat),
    (cs.flatMap utf8EncodeChar).length < fuel →
    utf8DecodeAux fuel (cs.flatMap utf8EncodeChar) = some cs := by
  intro cs
  induction cs with
  | nil =>
    intro fuel _
    simp [utf8DecodeAux]
  | cons c cs ih =>
    intro fuel h
    rw [List.flatMap_cons] at h ⊢
    cases fuel with
    | zero => exact absurd h (Nat.not_lt_zero _)
    | succ f =>
      obtain ⟨b, tl, hbt⟩ := List.exists_cons_of_ne_nil (utf8EncodeChar_ne_nil c)
      rw [hbt, List.cons_append, utf8DecodeAux, ← List.cons_append, ← hbt,
        utf8DecodeOne_encode]
      show (utf8DecodeAux f (cs.flatMap utf8EncodeChar)).map (c :: ·) =
        some (c :: cs)
      have hlen : (cs.flatMap utf8EncodeChar).length < f := by
        rw [hbt] at h
        simp only [List.length_cons, List.length_append] at h
        omega
      rw [ih f hlen]
      rfl

theorem utf8Decode_encode (cs : List Char) :
    utf8Decode (cs.flatMap utf8EncodeChar) = some ⟨cs⟩ := by
  unfold utf8Decode
  rw [utf8DecodeAux_encode cs _ (Nat.lt_succ_self _)]
  rfl

theorem b64Index_b64Char (n : Nat) (h : n < 64) : b64Index (b64Char n) = some n := by
  interval_cases n <;> decide

theorem b64Char_toNat_range (n : Nat) :
    45 ≤ (b64Char n).toNat ∧ (b64Char n).toNat ≤ 122 ∧ (b64Char n).toNat ≠ 61 := by
  unfold b64Char
  by_cases h1 : n < 26
  · rw [if_pos h1, toNat_ofNat_valid _ (by omega)]
    omega
  · rw [if_neg h1]
    by_cases h2 : n < 52
    · rw [if_pos h2, toNat_ofNat_valid _ (by omega)]
      omega
    · rw [if_neg h2]
      by_cases h3 : n < 62
      · rw [if_pos h3, toNat_ofNat_valid _ (by omega)]
        omega
      · rw [if_neg h3]
        by_cases h4 : n = 62
        · rw [if_pos h4, toNat_ofNat_valid _ (by omega)]
          omega
        · rw [if_neg h4, toNat_ofNat_valid _ (by omega)]
          omega

theorem b64Char_ne_pad (n : Nat) : ¬ b64Char n = Char.ofNat 61 := by
  intro h
  have h2 := congrArg Char.toNat h
  rw [toNat_ofNat_valid 61 (by omega)] at h2
  exact (b64Char_toNat_range n).2.2 h2

theorem b64Char_ne_cr (n : Nat) : ¬ b64Char n = Char.ofNat 13 := by
  intro h
  have h2 := congrArg Char.toNat h
  rw [toNat_ofNat_valid 13 (by omega)] at h2
  have := (b64Char_toNat_range n).1
  omega

theorem b64Char_ne_lf (n : Nat) : ¬ b64Char n = Char.ofNat 10 := by
  intro h
  have h2 := congrArg Char.toNat h
  rw [toNat_ofNat_valid 10 (by omega)] at h2
  have := (b64Char_toNat_range n).1
  omega

theorem base64Chars_mem (n : Nat) : ∀ bs : List Nat, bs.length ≤ n →
    ∀ c ∈ base64Chars bs, (∃ m, c = b64Char m) ∨ c = Char.ofNat 61 := by
  induction n with
  | zero =>
    intro bs hlen
    have : bs = [] := List.eq_nil_of_length_eq_zero (Nat.le_zero.mp hlen)
    subst this
    intro c hc
    exact absurd hc (List.not_mem_nil c)
  | succ n ih =>
    intro bs hlen c hc
    cases bs with
    | nil => exact absurd hc (List.not_mem_nil c)
    | cons b0 tl =>
      cases tl with
      | nil =>
        have : c = b64Char (b0 / 4) ∨ c = b64Char (b0 % 4 * 16) ∨
            c = Char.ofNat 61 ∨ c = Char.ofNat 61 := by
          simpa [base64Chars] using hc
        rcases this with rfl | rfl | rfl | rfl
        · exact Or.inl ⟨_, rfl⟩
        · exact Or.inl ⟨_, rfl⟩
        · exact Or.inr rfl
        · exact Or.inr rfl
      | cons b1 tl2 =>
        cases tl2 with
        | nil =>
          have : c = b64Char (b0 / 4) ∨ c = b64Char (b0 % 4 * 16 + b1 / 16) ∨
              c = b64Char (b1 % 16 * 4) ∨ c = Char.ofNat 61 := by
            simpa [base64Chars] using hc
          rcases this with rfl | rfl | rfl | rfl
          · exact Or.inl ⟨_, rfl⟩
          · exact Or.inl ⟨_, rfl⟩
          · exact Or.inl ⟨_, rfl⟩
          · exact Or.inr rfl
        | cons b2 rest =>
          have : c = b64Char (b0 / 4) ∨ c = b64Char (b0 % 4 * 16 + b1 / 16) ∨
              c = b64Char (b1 % 16 * 4 + b2 / 64) ∨ c = b64Char (b2 % 64) ∨
              c ∈ base64Chars rest := by
            simpa [base64Chars] using hc
          rcases this with rfl | rfl | rfl | rfl | hmem
          · exact Or.inl ⟨_, rfl⟩
          · exact Or.inl ⟨_, rfl⟩
          · exact Or.inl ⟨_, rfl⟩
          · exact Or.inl ⟨_, rfl⟩
          · refine ih rest ?_ c hmem
            simp only [List.length_cons] at hlen
            omega

theorem base64Chars_filter (bs : List Nat) :
    (base64Chars bs).filter
      (fun c => !decide (c = Char.ofNat 13 ∨ c = Char.ofNat 10)) = base64Chars bs := by
  rw [List.filter_eq_self]
  intro c hc
  rcases base64Chars_mem bs.length bs le_rfl c hc with ⟨m, rfl⟩ | rfl
  · simp [b64Char_ne_cr, b64Char_ne_lf]
  · decide

theorem base64Dec_encode (n : Nat) : ∀ bs : List Nat, bs.length ≤ n →
    (∀ b ∈ bs, b < 256) → base64Dec (base64Chars bs) = some bs := by
  induction n with
  | zero =>
    intro bs hlen _
    have : bs = [] := List.eq_nil_of_length_eq_zero (Nat.le_zero.mp hlen)
    subst this
    rfl
  | succ n ih =>
    intro bs hlen hb
    cases bs with
    | nil => rfl
    | cons b0 tl =>
      have hb0 : b0 < 256 := hb b0 (List.mem_cons_self _ _)
      cases tl with
      | nil =>
        have h0 : b64Index (b64Char (b0 / 4)) = some (b0 / 4) :=
          b64Index_b64Char _ (by omega)
        have h1 : b64Index (b64Char (b0 % 4 * 16)) = some (b0 % 4 * 16) :=
          b64Index_b64Char _ (by omega)
        simp only [base64Chars, base64Dec, h0, h1, if_pos rfl]
        simp only [and_self, if_pos, Option.some.injEq, List.cons.injEq, and_true]
        omega
      | cons b1 tl2 =>
        have hb1 : b1 < 256 := hb b1 (List.mem_cons_of_mem _ (List.mem_cons_self _ _))
        cases tl2 with
        | nil =>
          have h0 : b64Index (b64Char (b0 / 4)) = some (b0 / 4) :=
            b64Index_b64Char _ (by omega)
          have h1 : b64Index (b64Char (b0 % 4 * 16 + b1 / 16)) =
              some (b0 % 4 * 16 + b1 / 16) := b64Index_b64Char _ (by omega)
          have h2 : b64Index (b64Char (b1 % 16 * 4)) = some (b1 % 16 * 4) :=
            b64Index_b64Char _ (by omega)
          simp only [base64Chars, base64Dec, h0, h1, h2,
            if_neg (b64Char_ne_pad (b1 % 16 * 4)), if_pos rfl]
          simp only [if_pos, Option.some.injEq, List.cons.injEq, and_true]
          constructor
          · omega
          · omega
        | cons b2 rest =>
          have hb2 : b2 < 256 := hb b2 (List.mem_cons_of_mem _
            (List.mem_cons_of_mem _ (List.mem_cons_self _ _)))
          have h0 : b64Index (b64Char (b0 / 4)) = some (b0 / 4) :=
            b64Index_b64Char _ (by omega)
          have h1 : b64Index (b64Char (b0 % 4 * 16 + b1 / 16)) =
              some (b0 % 4 * 16 + b1 / 16) := b64Index_b64Char _ (by omega)
          have h2 : b64Index (b64Char (b1 % 16 * 4 + b2 / 64)) =
              some (b1 % 16 * 4 + b2 / 64) := b64Index_b64Char _ (by omega)
          have h3 : b64Index (b64Char (b2 % 64)) = some (b2 % 64) :=
            b64Index_b64Char _ (by omega)
          have hr : base64Dec (base64Chars rest) = some rest := by
            refine ih rest ?_ ?_
            · simp only [List.length_cons] at hlen
              omega
            · intro b hbm
              exact hb b (List.mem_cons_of_mem _ (List.mem_cons_of_mem _
                (List.mem_cons_of_mem _ hbm)))
          simp only [base64Chars, base64Dec, h0, h1, h2, h3,
            if_neg (b64Char_ne_pad (b1 % 16 * 4 + b2 / 64)),
            if_neg (b64Char_ne_pad (b2 % 64)), hr, Option.map_some',
            Option.some.injEq, List.cons.injEq]
          repeat' apply And.intro
          all_goals first
            | trivial
            | omega

theorem base64urlDecode_encode (bs : List Nat) (hb : ∀ b ∈ bs, b < 256) :
    base64urlDecode (base64urlEncode bs) = .ok bs := by
  unfold base64urlDecode base64urlEncode
  show (match base64Dec ((base64Chars bs).filter
      (fun c => !decide (c = Char.ofNat 13 ∨ c = Char.ofNat 10))) with
    | none => Except.error "illegal base64 data"
    | some bs => Except.ok bs) = Except.ok bs
  rw [base64Chars_filter bs, base64Dec_encode bs.length bs le_rfl hb]

theorem utf8EncodeChar_lt_256 (c : Char) : ∀ b ∈ utf8EncodeChar c, b < 256 := by
  have hv := char_valid c
  unfold utf8EncodeChar
  by_cases h1 : c.toNat < 128
  · rw [if_pos h1]
    intro b hb
    rw [List.mem_singleton] at hb
    omega
  · rw [if_neg h1]
    by_cases h2 : c.toNat < 2048
    · rw [if_pos h2]
      intro b hb
      rcases List.mem_cons.mp hb with rfl | hb
      · omega
      · rw [List.mem_singleton] at hb
        omega
    · rw [if_neg h2]
      by_cases h3 : c.toNat < 65536
      · rw [if_pos h3]
        intro b hb
        rcases List.mem_cons.mp hb with rfl | hb
        · omega
        · rcases List.mem_cons.mp hb with rfl | hb
          · omega
          · rw [List.mem_singleton] at hb
            omega
      · rw [if_neg h3]
        intro b hb
        rcases List.mem_cons.mp hb with rfl | hb
        · omega
        · rcases List.mem_cons.mp hb with rfl | hb
          · omega
          · rcases List.mem_cons.mp hb with rfl | hb
            · omega
            · rw [List.mem_singleton] at hb
              omega

theorem flatMap_utf8_lt_256 (cs : List Char) :
    ∀ b ∈ cs.flatMap utf8EncodeChar, b < 256 := by
  intro b hb
  rw [List.mem_flatMap] at hb
  obtain ⟨c, _, hbc⟩ := hb
  exact utf8EncodeChar_lt_256 c b hbc

theorem natDecimalAux_append : ∀ (n fuel : Nat) (acc : List Char), n < fuel →
    natDecimalAux fuel n acc = natDecimalAux (n + 1) n [] ++ acc := by
  intro n
  induction n using Nat.strong_induction_on with
  | _ n ih =>
    intro fuel acc hf
    cases fuel with
    | zero => omega
    | succ f =>
      by_cases h10 : n < 10
      · rw [natDecimalAux, if_pos h10]
        rw [natDecimalAux, if_pos h10]
        rfl
      · rw [natDecimalAux, if_neg h10]
        rw [ih (n / 10) (by omega) f _ (by omega)]
        conv_rhs => rw [natDecimalAux, if_neg h10,
          ih (n / 10) (by omega) n _ (by omega)]
        simp [List.append_assoc]

theorem natDecimal_eq_if (n : Nat) : natDecimal n =
    if n < 10 then [digitChar n]
    else natDecimal (n / 10) ++ [digitChar (n % 10)] := by
  unfold natDecimal
  by_cases h10 : n < 10
  · rw [if_pos h10, natDecimalAux, if_pos h10]
  · rw [if_neg h10, natDecimalAux, if_neg h10,
      natDecimalAux_append (n / 10) n _ (by omega)]

theorem digitChar_toNat (d : Nat) (h : d < 10) : (digitChar d).toNat = 48 + d := by
  unfold digitChar
  exact toNat_ofNat_valid _ (by omega)

theorem natDecimal_digits : ∀ n : Nat, ∀ c ∈ natDecimal n,
    48 ≤ c.toNat ∧ c.toNat ≤ 57 := by
  intro n
  induction n using Nat.strong_induction_on with
  | _ n ih =>
    intro c hc
    rw [natDecimal_eq_if] at hc
    by_cases h10 : n < 10
    · rw [if_pos h10, List.mem_singleton] at hc
      subst hc
      rw [digitChar_toNat n h10]
      omega
    · rw [if_neg h10, List.mem_append] at hc
      rcases hc with hc | hc
      · exact ih (n / 10) (by omega) c hc
      · rw [List.mem_singleton] at hc
        subst hc
        rw [digitChar_toNat _ (by omega)]
        omega

theorem natDecimal_ne_nil (n : Nat) : natDecimal n ≠ [] := by
  rw [natDecimal_eq_if]
  by_cases h10 : n < 10
  · rw [if_pos h10]
    exact List.cons_ne_nil _ _
  · rw [if_neg h10]
    simp

theorem natDecimal_foldl : ∀ (n : Nat) (a : Nat),
    (natDecimal n).foldl (fun acc c => acc * 10 + (c.toNat - 48)) a =
      a * 10 ^ (natDecimal n).length + n := by
  intro n
  induction n using Nat.strong_induction_on with
  | _ n ih =>
    intro a
    rw [natDecimal_eq_if]
    by_cases h10 : n < 10
    · rw [if_pos h10]
      show a * 10 + ((digitChar n).toNat - 48) = a * 10 ^ 1 + n
      rw [digitChar_toNat n h10, pow_one]
      omega
    · rw [if_neg h10, List.foldl_append, ih (n / 10) (by omega) a,
        List.length_append]
      show (a * 10 ^ (natDecimal (n / 10)).length + n / 10) * 10 +
          ((digitChar (n % 10)).toNat - 48) =
        a * 10 ^ ((natDecimal (n / 10)).length + 1) + n
      rw [digitChar_toNat _ (by omega), pow_succ, ← mul_assoc]
      generalize a * 10 ^ (natDecimal (n / 10)).length = C
      omega

theorem digitsVal_natDecimal (n : Nat) : digitsVal (natDecimal n) = some n := by
  have hempty : (natDecimal n).isEmpty = false := by
    cases hnl : natDecimal n with
    | nil => exact absurd hnl (natDecimal_ne_nil n)
    | cons c tl => rfl
  have hall : ((natDecimal n).all fun c =>
      decide (48 ≤ c.toNat ∧ c.toNat ≤ 57)) = true := by
    rw [List.all_eq_true]
    intro c hc
    exact decide_eq_true (natDecimal_digits n c hc)
  unfold digitsVal
  rw [hempty, hall]
  show (if false = true then none else if true = true then
    some ((natDecimal n).foldl (fun acc c => acc * 10 + (c.toNat - 48)) 0)
    else none) = some n
  rw [if_neg (by simp), if_pos rfl, natDecimal_foldl n 0]
  simp

theorem parseInt64_intDecimal (i : Int)
    (h : -9223372036854775808 ≤ i ∧ i < 9223372036854775808) :
    parseInt64 (intDecimal i) = some i := by
  unfold intDecimal
  by_cases hneg : i < 0
  · rw [if_pos hneg]
    show parseInt64 (Char.ofNat 45 :: natDecimal (-i).toNat) = some i
    simp only [parseInt64]
    rw [if_pos trivial, digitsVal_natDecimal]
    show (if (-i).toNat ≤ 9223372036854775808 then
      some (-((-i).toNat : Int)) else none) = some i
    rw [if_pos (by omega)]
    congr 1
    rw [Int.toNat_of_nonneg (by omega)]
    omega
  · rw [if_neg hneg]
    obtain ⟨c, tl, hct⟩ := List.exists_cons_of_ne_nil (natDecimal_ne_nil i.toNat)
    have hd := natDecimal_digits i.toNat c (hct ▸ List.mem_cons_self c tl)
    have hne45 : ¬ c = Char.ofNat 45 := by
      intro he
      have h2 := congrArg Char.toNat he
      rw [toNat_ofNat_valid 45 (by omega)] at h2
      omega
    have hne43 : ¬ c = Char.ofNat 43 := by
      intro he
      have h2 := congrArg Char.toNat he
      rw [toNat_ofNat_valid 43 (by omega)] at h2
      omega
    rw [hct]
    simp only [parseInt64]
    rw [if_neg hne45, if_neg hne43, ← hct, digitsVal_natDecimal]
    show (if i.toNat ≤ 9223372036854775807 then
      some ((i.toNat : Int)) else none) = some i
    rw [if_pos (by omega)]
    congr 1
    exact Int.toNat_of_nonneg (by omega)

theorem hexVal_hexDigit (d : Nat) (h : d < 16) : hexVal (hexDigit d) = some d := by
  interval_cases d <;> decide

theorem parseStringBody_unquote : ∀ (l : List Char) (fuel : Nat) (rest : List Char),
    (l.flatMap goEscapeChar).length < fuel →
    parseStringBody fuel (l.flatMap goEscapeChar ++ (Char.ofNat 34 :: rest)) =
      some (l, rest) := by
  intro l
  induction l with
  | nil =>
    intro fuel rest hlt
    cases fuel with
    | zero => exact absurd hlt (by simp)
    | succ f =>
      show parseStringBody (f + 1) (Char.ofNat 34 :: rest) = some ([], rest)
      simp only [parseStringBody]
      rw [if_pos trivial]
  | cons c l ih =>
    intro fuel rest hlt
    rw [List.flatMap_cons] at hlt ⊢
    by_cases h34 : c.toNat = 34
    · have hc : c = Char.ofNat 34 := (char_eq_ofNat_iff c 34 (by omega)).mpr h34
      subst hc
      have hg : goEscapeChar (Char.ofNat 34) = [Char.ofNat 92, Char.ofNat 34] := by
        decide
      rw [hg] at hlt ⊢
      simp only [List.length_append, List.length_cons, List.length_nil] at hlt
      cases fuel with
      | zero => omega
      | succ f =>
        show parseStringBody (f + 1) (Char.ofNat 92 :: Char.ofNat 34 ::
          (l.flatMap goEscapeChar ++ (Char.ofNat 34 :: rest))) =
          some (Char.ofNat 34 :: l, rest)
        simp only [parseStringBody]
        rw [if_neg (by decide), if_pos trivial, if_neg (by decide)]
        have hesc : escChar (Char.ofNat 34) = some (Char.ofNat 34) := by decide
        rw [hesc, ih f rest (by omega)]
        rfl
    · by_cases h92 : c.toNat = 92
      · have hc : c = Char.ofNat 92 := (char_eq_ofNat_iff c 92 (by omega)).mpr h92
        subst hc
        have hg : goEscapeChar (Char.ofNat 92) = [Char.ofNat 92, Char.ofNat 92] := by
          decide
        rw [hg] at hlt ⊢
        simp only [List.length_append, List.length_cons, List.length_nil] at hlt
        cases fuel with
        | zero => omega
        | succ f =>
          show parseStringBody (f + 1) (Char.ofNat 92 :: Char.ofNat 92 ::
            (l.flatMap goEscapeChar ++ (Char.ofNat 34 :: rest))) =
            some (Char.ofNat 92 :: l, rest)
          simp only [parseStringBody]
          rw [if_neg (by decide), if_pos trivial, if_neg (by decide)]
          have hesc : escChar (Char.ofNat 92) = some (Char.ofNat 92) := by decide
          rw [hesc, ih f rest (by omega)]
          rfl
      · by_cases h10 : c.toNat = 10
        · have hc : c = Char.ofNat 10 := (char_eq_ofNat_iff c 10 (by omega)).mpr h10
          subst hc
          have hg : goEscapeChar (Char.ofNat 10) = [Char.ofNat 92, Char.ofNat 110] := by
            decide
          rw [hg] at hlt ⊢
          simp only [List.length_append, List.length_cons, List.length_nil] at hlt
          cases fuel with
          | zero => omega
          | succ f =>
            show parseStringBody (f + 1) (Char.ofNat 92 :: Char.ofNat 110 ::
              (l.flatMap goEscapeChar ++ (Char.ofNat 34 :: rest))) =
              some (Char.ofNat 10 :: l, rest)
            simp only [parseStringBody]
            rw [if_neg (by decide), if_pos trivial, if_neg (by decide)]
            have hesc : escChar (Char.ofNat 110) = some (Char.ofNat 10) := by decide
            rw [hesc, ih f rest (by omega)]
            rfl
        · by_cases h13 : c.toNat = 13
          · have hc : c = Char.ofNat 13 := (char_eq_ofNat_iff c 13 (by omega)).mpr h13
            subst hc
            have hg : goEscapeChar (Char.ofNat 13) =
                [Char.ofNat 92, Char.ofNat 114] := by decide
            rw [hg] at hlt ⊢
            simp only [List.length_append, List.length_cons, List.length_nil] at hlt
            cases fuel with
            | zero => omega
            | succ f =>
              show parseStringBody (f + 1) (Char.ofNat 92 :: Char.ofNat 114 ::
                (l.flatMap goEscapeChar ++ (Char.ofNat 34 :: rest))) =
                some (Char.ofNat 13 :: l, rest)
              simp only [parseStringBody]
              rw [if_neg (by decide), if_pos trivial, if_neg (by decide)]
              have hesc : escChar (Char.ofNat 114) = some (Char.ofNat 13) := by decide
              rw [hesc, ih f rest (by omega)]
              rfl
          · by_cases h9 : c.toNat = 9
            · have hc : c = Char.ofNat 9 := (char_eq_ofNat_iff c 9 (by omega)).mpr h9
              subst hc
              have hg : goEscapeChar (Char.ofNat 9) =
                  [Char.ofNat 92, Char.ofNat 116] := by decide
              rw [hg] at hlt ⊢
              simp only [List.length_append, List.length_cons, List.length_nil] at hlt
              cases fuel with
              | zero => omega
              | succ f =>
                show parseStringBody (f + 1) (Char.ofNat 92 :: Char.ofNat 116 ::
                  (l.flatMap goEscapeChar ++ (Char.ofNat 34 :: rest))) =
                  some (Char.ofNat 9 :: l, rest)
                simp only [parseStringBody]
                rw [if_neg (by decide), if_pos trivial, if_neg (by decide)]
                have hesc : escChar (Char.ofNat 116) = some (Char.ofNat 9) := by decide
                rw [hesc, ih f rest (by omega)]
                rfl
            · by_cases hctl : c.toNat < 32 ∨ c.toNat = 60 ∨ c.toNat = 62 ∨
                  c.toNat = 38
              · have hg : goEscapeChar c = [Char.ofNat 92, Char.ofNat 117,
                    Char.ofNat 48, Char.ofNat 48, hexDigit (c.toNat / 16),
                    hexDigit (c.toNat % 16)] := by
                  simp only [goEscapeChar]
                  rw [if_neg (by omega), if_neg (by omega), if_neg (by omega),
                    if_neg (by omega), if_neg (by omega), if_pos (by omega)]
                rw [hg] at hlt ⊢
                simp only [List.length_append, List.length_cons, List.length_nil]
                  at hlt
                cases fuel with
                | zero => omega
                | succ f =>
                  show parseStringBody (f + 1) (Char.ofNat 92 :: Char.ofNat 117 ::
                    Char.ofNat 48 :: Char.ofNat 48 :: hexDigit (c.toNat / 16) ::
                    hexDigit (c.toNat % 16) ::
                    (l.flatMap goEscapeChar ++ (Char.ofNat 34 :: rest))) =
                    some (c :: l, rest)
                  simp only [parseStringBody]
                  rw [if_neg (by decide), if_pos trivial, if_pos trivial]
                  have h48 : hexVal (Char.ofNat 48) = some 0 := by decide
                  rw [h48, hexVal_hexDigit (c.toNat / 16) (by omega),
                    hexVal_hexDigit (c.toNat % 16) (by omega)]
                  show (if 55296 ≤ ((0 * 16 + 0) * 16 + c.toNat / 16) * 16 +
                      c.toNat % 16 ∧
                      ((0 * 16 + 0) * 16 + c.toNat / 16) * 16 + c.toNat % 16 <
                        57344 then none
                    else Option.map (fun pr => (Char.ofNat (((0 * 16 + 0) * 16 +
                      c.toNat / 16) * 16 + c.toNat % 16) :: pr.1, pr.2))
                      (parseStringBody f (l.flatMap goEscapeChar ++
                        (Char.ofNat 34 :: rest)))) = some (c :: l, rest)
                  rw [if_neg (by omega)]
                  have hX : ((0 * 16 + 0) * 16 + c.toNat / 16) * 16 + c.toNat % 16
                      = c.toNat := by omega
                  rw [hX, Char.ofNat_toNat, ih f rest (by omega)]
                  rfl
              · by_cases hls : c.toNat = 8232 ∨ c.toNat = 8233
                · have hg : goEscapeChar c = [Char.ofNat 92, Char.ofNat 117,
                      Char.ofNat 50, Char.ofNat 48, hexDigit (c.toNat / 16 % 16),
                      hexDigit (c.toNat % 16)] := by
                    simp only [goEscapeChar]
                    rw [if_neg (by omega), if_neg (by omega), if_neg (by omega),
                      if_neg (by omega), if_neg (by omega), if_neg (by omega),
                      if_pos (by omega)]
                  rw [hg] at hlt ⊢
                  simp only [List.length_append, List.length_cons, List.length_nil]
                    at hlt
                  cases fuel with
                  | zero => omega
                  | succ f =>
                    show parseStringBody (f + 1) (Char.ofNat 92 :: Char.ofNat 117 ::
                      Char.ofNat 50 :: Char.ofNat 48 ::
                      hexDigit (c.toNat / 16 % 16) :: hexDigit (c.toNat % 16) ::
                      (l.flatMap goEscapeChar ++ (Char.ofNat 34 :: rest))) =
                      some (c :: l, rest)
                    simp only [parseStringBody]
                    rw [if_neg (by decide), if_pos trivial, if_pos trivial]
                    have h50 : hexVal (Char.ofNat 50) = some 2 := by decide
                    have h48 : hexVal (Char.ofNat 48) = some 0 := by decide
                    rw [h50, h48, hexVal_hexDigit (c.toNat / 16 % 16) (by omega),
                      hexVal_hexDigit (c.toNat % 16) (by omega)]
                    show (if 55296 ≤ ((2 * 16 + 0) * 16 + c.toNat / 16 % 16) * 16 +
                        c.toNat % 16 ∧
                        ((2 * 16 + 0) * 16 + c.toNat / 16 % 16) * 16 +
                          c.toNat % 16 < 57344 then none
                      else Option.map (fun pr => (Char.ofNat (((2 * 16 + 0) * 16 +
                        c.toNat / 16 % 16) * 16 + c.toNat % 16) :: pr.1, pr.2))
                        (parseStringBody f (l.flatMap goEscapeChar ++
                          (Char.ofNat 34 :: rest)))) = some (c :: l, rest)
                    rw [if_neg (by omega)]
                    have hX : ((2 * 16 + 0) * 16 + c.toNat / 16 % 16) * 16 +
                        c.toNat % 16 = c.toNat := by omega
                    rw [hX, Char.ofNat_toNat, ih f rest (by omega)]
                    rfl
                · have hg : goEscapeChar c = [c] := by
                    simp only [goEscapeChar]
                    rw [if_neg (by omega), if_neg (by omega), if_neg (by omega),
                      if_neg (by omega), if_neg (by omega), if_neg (by omega),
                      if_neg (by omega)]
                  rw [hg] at hlt ⊢
                  simp only [List.length_append, List.length_cons, List.length_nil]
                    at hlt
                  cases fuel with
                  | zero => omega
                  | succ f =>
                    show parseStringBody (f + 1) (c ::
                      (l.flatMap goEscapeChar ++ (Char.ofNat 34 :: rest))) =
                      some (c :: l, rest)
                    simp only [parseStringBody]
                    have hne34 : ¬ c = Char.ofNat 34 := by
                      intro he
                      have h2 := congrArg Char.toNat he
                      rw [toNat_ofNat_valid 34 (by omega)] at h2
                      omega
                    have hne92 : ¬ c = Char.ofNat 92 := by
                      intro he
                      have h2 := congrArg Char.toNat he
                      rw [toNat_ofNat_valid 92 (by omega)] at h2
                      omega
                    rw [if_neg hne34, if_neg hne92, if_neg (by omega),
                      ih f rest (by omega)]
                    rfl

theorem lexNumber_digits (c : Char) (tl : List Char) (d : Char) (rest : List Char)
    (hc : isDigit c = true) (hc48 : ¬ c = Char.ofNat 48)
    (hc45 : ¬ c = Char.ofNat 45)
    (htl : ∀ x ∈ tl, isDigit x = true)
    (hd : isDigit d = false) (hd46 : ¬ d = Char.ofNat 46)
    (hd101 : ¬ d = Char.ofNat 101) (hd69 : ¬ d = Char.ofNat 69) :
    lexNumber (c :: tl ++ (d :: rest)) = some (c :: tl, d :: rest) := by
  have htake : (tl ++ (d :: rest)).takeWhile isDigit = tl := by
    clear hc hc48 hc45
    induction tl with
    | nil => simp [List.takeWhile_cons, hd]
    | cons x xs ih =>
      rw [List.cons_append, List.takeWhile_cons_of_pos
        (htl x (List.mem_cons_self x xs)),
        ih (fun y hy => htl y (List.mem_cons_of_mem x hy))]
  have hdrop : (tl ++ (d :: rest)).dropWhile isDigit = d :: rest := by
    clear hc hc48 hc45 htake
    induction tl with
    | nil => simp [List.dropWhile_cons, hd]
    | cons x xs ih =>
      rw [List.cons_append, List.dropWhile_cons_of_pos
        (htl x (List.mem_cons_self x xs)),
        ih (fun y hy => htl y (List.mem_cons_of_mem x hy))]
  simp [lexNumber, hc45, hc, hc48, hd46, hd101, hd69, htake, hdrop, hd]

theorem lexNumber_digits_neg (c : Char) (tl : List Char) (d : Char)
    (rest : List Char)
    (hc : isDigit c = true) (hc48 : ¬ c = Char.ofNat 48)
    (htl : ∀ x ∈ tl, isDigit x = true)
    (hd : isDigit d = false) (hd46 : ¬ d = Char.ofNat 46)
    (hd101 : ¬ d = Char.ofNat 101) (hd69 : ¬ d = Char.ofNat 69) :
    lexNumber (Char.ofNat 45 :: (c :: tl ++ (d :: rest))) =
      some (Char.ofNat 45 :: (c :: tl), d :: rest) := by
  have htake : (tl ++ (d :: rest)).takeWhile isDigit = tl := by
    clear hc hc48
    induction tl with
    | nil => simp [List.takeWhile_cons, hd]
    | cons x xs ih =>
      rw [List.cons_append, List.takeWhile_cons_of_pos
        (htl x (List.mem_cons_self x xs)),
        ih (fun y hy => htl y (List.mem_cons_of_mem x hy))]
  have hdrop : (tl ++ (d :: rest)).dropWhile isDigit = d :: rest := by
    clear hc hc48 htake
    induction tl with
    | nil => simp [List.dropWhile_cons, hd]
    | cons x xs ih =>
      rw [List.cons_append, List.dropWhile_cons_of_pos
        (htl x (List.mem_cons_self x xs)),
        ih (fun y hy => htl y (List.mem_cons_of_mem x hy))]
  simp [lexNumber, hc, hc48, hd46, hd101, hd69, htake, hdrop, hd]

theorem natDecimal_head_ne_48 : ∀ n : Nat, 1 ≤ n → ∀ c tl,
    natDecimal n = c :: tl → ¬ c = Char.ofNat 48 := by
  intro n
  induction n using Nat.strong_induction_on with
  | _ n ih =>
    intro h1 c tl hct
    rw [natDecimal_eq_if] at hct
    by_cases h10 : n < 10
    · rw [if_pos h10] at hct
      injection hct with hc _
      subst hc
      intro he
      have h2 := congrArg Char.toNat he
      rw [digitChar_toNat n h10, toNat_ofNat_valid 48 (by omega)] at h2
      omega
    · rw [if_neg h10] at hct
      obtain ⟨c', tl', hct'⟩ :=
        List.exists_cons_of_ne_nil (natDecimal_ne_nil (n / 10))
      rw [hct', List.cons_append] at hct
      injection hct with hc _
      subst hc
      exact ih (n / 10) (by omega) (by omega) c' tl' hct'

theorem lexNumber_natDecimal (n : Nat) (d : Char) (rest : List Char)
    (hd : isDigit d = false) (hd46 : ¬ d = Char.ofNat 46)
    (hd101 : ¬ d = Char.ofNat 101) (hd69 : ¬ d = Char.ofNat 69) :
    lexNumber (natDecimal n ++ (d :: rest)) = some (natDecimal n, d :: rest) := by
  by_cases h0 : n = 0
  · subst h0
    have hz : natDecimal 0 = [Char.ofNat 48] := by decide
    rw [hz]
    have h48 : isDigit (Char.ofNat 48) = true := by decide
    simp [lexNumber, hd, hd46, hd101, hd69, h48]
  · obtain ⟨c, tl, hct⟩ := List.exists_cons_of_ne_nil (natDecimal_ne_nil n)
    have hdig := natDecimal_digits n c (hct ▸ List.mem_cons_self c tl)
    have htl : ∀ x ∈ tl, isDigit x = true := by
      intro x hx
      exact decide_eq_true
        (natDecimal_digits n x (hct ▸ List.mem_cons_of_mem c hx))
    have hc : isDigit c = true := decide_eq_true hdig
    have hc48 : ¬ c = Char.ofNat 48 :=
      natDecimal_head_ne_48 n (by omega) c tl hct
    have hc45 : ¬ c = Char.ofNat 45 := by
      intro he
      have h2 := congrArg Char.toNat he
      rw [toNat_ofNat_valid 45 (by omega)] at h2
      omega
    rw [hct]
    exact lexNumber_digits c tl d rest hc hc48 hc45 htl hd hd46 hd101 hd69

theorem lexNumber_intDecimal (i : Int) (d : Char) (rest : List Char)
    (hd : isDigit d = false) (hd46 : ¬ d = Char.ofNat 46)
    (hd101 : ¬ d = Char.ofNat 101) (hd69 : ¬ d = Char.ofNat 69) :
    lexNumber (intDecimal i ++ (d :: rest)) = some (intDecimal i, d :: rest) := by
  unfold intDecimal
  by_cases hneg : i < 0
  · rw [if_pos hneg]
    have h1 : 1 ≤ (-i).toNat := by omega
    obtain ⟨c, tl, hct⟩ :=
      List.exists_cons_of_ne_nil (natDecimal_ne_nil (-i).toNat)
    have hdig := natDecimal_digits (-i).toNat c (hct ▸ List.mem_cons_self c tl)
    have htl : ∀ x ∈ tl, isDigit x = true := by
      intro x hx
      exact decide_eq_true
        (natDecimal_digits (-i).toNat x (hct ▸ List.mem_cons_of_mem c hx))
    have hc : isDigit c = true := decide_eq_true hdig
    have hc48 : ¬ c = Char.ofNat 48 :=
      natDecimal_head_ne_48 (-i).toNat h1 c tl hct
    have hc45 : ¬ c = Char.ofNat 45 := by
      intro he
      have h2 := congrArg Char.toNat he
      rw [toNat_ofNat_valid 45 (by omega)] at h2
      omega
    rw [hct, List.cons_append]
    exact lexNumber_digits_neg c tl d rest hc hc48 htl hd hd46 hd101 hd69
  · rw [if_neg hneg]
    exact lexNumber_natDecimal i.toNat d rest hd hd46 hd101 hd69

theorem skipWS_cons_of_not_ws (c : Char) (l : List Char) (h : isWS c = false) :
    skipWS (c :: l) = c :: l := by
  simp [skipWS, List.dropWhile_cons, h]

theorem char_ne_ofNat (c : Char) (n : Nat) (hn : n < 55296) (h : c.toNat ≠ n) :
    ¬ c = Char.ofNat n := by
  intro he
  rw [he, toNat_ofNat_valid n (Or.inl hn)] at h
  exact h rfl

theorem intDecimal_shape (i : Int) : ∃ c tl, intDecimal i = c :: tl ∧
    (c.toNat = 45 ∨ (48 ≤ c.toNat ∧ c.toNat ≤ 57)) := by
  unfold intDecimal
  by_cases hneg : i < 0
  · rw [if_pos hneg]
    refine ⟨Char.ofNat 45, natDecimal (-i).toNat, rfl, Or.inl ?_⟩
    exact toNat_ofNat_valid 45 (by omega)
  · rw [if_neg hneg]
    obtain ⟨c, tl, hct⟩ := List.exists_cons_of_ne_nil (natDecimal_ne_nil i.toNat)
    exact ⟨c, tl, hct, Or.inr
      (natDecimal_digits i.toNat c (hct ▸ List.mem_cons_self c tl))⟩

theorem parseCore0_intDecimal (A : Int) (d : Char) (rest : List Char) (g : Nat)
    (hdd : isDigit d = false)
    (hd46 : ¬ d = Char.ofNat 46) (hd101 : ¬ d = Char.ofNat 101)
    (hd69 : ¬ d = Char.ofNat 69) :
    parseCore (g + 1) 0 (intDecimal A ++ (d :: rest)) =
      some (Json.num ⟨intDecimal A⟩, d :: rest) := by
  obtain ⟨c, tl, hct, hcv⟩ := intDecimal_shape A
  rw [hct, List.cons_append]
  have hsk : skipWS (c :: (tl ++ d :: rest)) = c :: (tl ++ d :: rest) :=
    skipWS_cons_of_not_ws c _ (by simp [isWS]; omega)
  have h34 : (c = Char.ofNat 34) = False :=
    eq_false (char_ne_ofNat c 34 (by omega) (by omega))
  have h123 : (c = Char.ofNat 123) = False :=
    eq_false (char_ne_ofNat c 123 (by omega) (by omega))
  have h91 : (c = Char.ofNat 91) = False :=
    eq_false (char_ne_ofNat c 91 (by omega) (by omega))
  have h116 : (c = Char.ofNat 116) = False :=
    eq_false (char_ne_ofNat c 116 (by omega) (by omega))
  have h102 : (c = Char.ofNat 102) = False :=
    eq_false (char_ne_ofNat c 102 (by omega) (by omega))
  have h110 : (c = Char.ofNat 110) = False :=
    eq_false (char_ne_ofNat c 110 (by omega) (by omega))
  simp only [parseCore, if_true, hsk, h34, h123, h91, h116, h102, h110, if_false]
  rw [← List.cons_append, ← hct,
    lexNumber_intDecimal A d rest hdd hd46 hd101 hd69]
  rfl

theorem parseCore0_goQuote (s : String) (rest : List Char) (g : Nat) :
    parseCore (g + 1) 0 (goQuote s ++ rest) = some (Json.str s, rest) := by
  unfold goQuote
  rw [List.cons_append, List.append_assoc]
  have hps : parseStringBody ((s.data.flatMap goEscapeChar ++
        ([Char.ofNat 34] ++ rest)).length + 1)
      (s.data.flatMap goEscapeChar ++ ([Char.ofNat 34] ++ rest)) =
      some (s.data, rest) := by
    exact parseStringBody_unquote s.data _ rest
      (by simp [List.length_append]; omega)
  have hsk : skipWS (Char.ofNat 34 :: (s.data.flatMap goEscapeChar ++
      ([Char.ofNat 34] ++ rest))) = Char.ofNat 34 ::
      (s.data.flatMap goEscapeChar ++ ([Char.ofNat 34] ++ rest)) :=
    skipWS_cons_of_not_ws _ _ (by decide)
  simp only [parseCore, if_true, hsk, hps, Option.map_some']

theorem parseCore1_added (A : Int) (g : Nat) :
    parseCore (g + 2) 1 (Char.ofNat 34 :: ("added_id".data ++
        (Char.ofNat 34 :: Char.ofNat 58 :: (intDecimal A ++ [Char.ofNat 125])))) =
      some (Json.obj [("added_id", Json.num ⟨intDecimal A⟩)], []) := by
  have hesc : "added_id".data.flatMap goEscapeChar = "added_id".data := by decide
  have hps : parseStringBody (("added_id".data ++
        (Char.ofNat 34 :: Char.ofNat 58 ::
          (intDecimal A ++ [Char.ofNat 125]))).length + 1)
      ("added_id".data ++ (Char.ofNat 34 :: Char.ofNat 58 ::
        (intDecimal A ++ [Char.ofNat 125]))) =
      some ("added_id".data, Char.ofNat 58 ::
        (intDecimal A ++ [Char.ofNat 125])) := by
    conv_lhs => rw [← hesc]
    exact parseStringBody_unquote "added_id".data _ _
      (by rw [hesc]; simp only [List.length_append, List.length_cons]; omega)
  have hsk : skipWS (Char.ofNat 34 :: ("added_id".data ++
      (Char.ofNat 34 :: Char.ofNat 58 :: (intDecimal A ++ [Char.ofNat 125])))) =
      Char.ofNat 34 :: ("added_id".data ++
      (Char.ofNat 34 :: Char.ofNat 58 :: (intDecimal A ++ [Char.ofNat 125]))) :=
    skipWS_cons_of_not_ws _ _ (by decide)
  have hsk2 : skipWS (Char.ofNat 58 :: (intDecimal A ++ [Char.ofNat 125])) =
      Char.ofNat 58 :: (intDecimal A ++ [Char.ofNat 125]) :=
    skipWS_cons_of_not_ws _ _ (by decide)
  have hv : parseCore (g + 1) 0 (intDecimal A ++ [Char.ofNat 125]) =
      some (Json.num ⟨intDecimal A⟩, [Char.ofNat 125]) :=
    parseCore0_intDecimal A (Char.ofNat 125) [] g (by decide) (by decide)
      (by decide) (by decide)
  have hsk3 : skipWS [Char.ofNat 125] = [Char.ofNat 125] :=
    skipWS_cons_of_not_ws _ _ (by decide)
  have hne : (Char.ofNat 125 = Char.ofNat 44) = False := eq_false (by decide)
  have hm0 : ((1 : Nat) = 0) = False := by decide
  generalize hg : g + 1 = G at hv
  rw [show g + 2 = G + 1 by omega]
  simp only [parseCore, hm0, if_false, if_true, hsk, hps, Option.bind, hsk2, hv,
    hsk3, hne]

theorem parseCore1_created (s : String) (g : Nat) :
    parseCore (g + 2) 1 (Char.ofNat 34 :: ("created_at".data ++
        (Char.ofNat 34 :: Char.ofNat 58 :: (goQuote s ++ [Char.ofNat 125])))) =
      some (Json.obj [("created_at", Json.str s)], []) := by
  have hesc : "created_at".data.flatMap goEscapeChar = "created_at".data := by
    decide
  have hps : parseStringBody (("created_at".data ++
        (Char.ofNat 34 :: Char.ofNat 58 ::
          (goQuote s ++ [Char.ofNat 125]))).length + 1)
      ("created_at".data ++ (Char.ofNat 34 :: Char.ofNat 58 ::
        (goQuote s ++ [Char.ofNat 125]))) =
      some ("created_at".data, Char.ofNat 58 ::
        (goQuote s ++ [Char.ofNat 125])) := by
    conv_lhs => rw [← hesc]
    exact parseStringBody_unquote "created_at".data _ _
      (by rw [hesc]; simp only [List.length_append, List.length_cons]; omega)
  have hsk : skipWS (Char.ofNat 34 :: ("created_at".data ++
      (Char.ofNat 34 :: Char.ofNat 58 :: (goQuote s ++ [Char.ofNat 125])))) =
      Char.ofNat 34 :: ("created_at".data ++
      (Char.ofNat 34 :: Char.ofNat 58 :: (goQuote s ++ [Char.ofNat 125]))) :=
    skipWS_cons_of_not_ws _ _ (by decide)
  have hsk2 : skipWS (Char.ofNat 58 :: (goQuote s ++ [Char.ofNat 125])) =
      Char.ofNat 58 :: (goQuote s ++ [Char.ofNat 125]) :=
    skipWS_cons_of_not_ws _ _ (by decide)
  have hv : parseCore (g + 1) 0 (goQuote s ++ [Char.ofNat 125]) =
      some (Json.str s, [Char.ofNat 125]) :=
    parseCore0_goQuote s [Char.ofNat 125] g
  have hsk3 : skipWS [Char.ofNat 125] = [Char.ofNat 125] :=
    skipWS_cons_of_not_ws _ _ (by decide)
  have hne : (Char.ofNat 125 = Char.ofNat 44) = False := eq_false (by decide)
  have hm0 : ((1 : Nat) = 0) = False := by decide
  generalize hg : g + 1 = G at hv
  rw [show g + 2 = G + 1 by omega]
  simp only [parseCore, hm0, if_false, if_true, hsk, hps, Option.bind, hsk2, hv,
    hsk3, hne]

theorem parseCore1_both (A : Int) (s : String) (g : Nat) :
    parseCore (g + 3) 1 (Char.ofNat 34 :: ("added_id".data ++
        (Char.ofNat 34 :: Char.ofNat 58 :: (intDecimal A ++ (Char.ofNat 44 ::
          Char.ofNat 34 :: ("created_at".data ++
            (Char.ofNat 34 :: Char.ofNat 58 ::
              (goQuote s ++ [Char.ofNat 125])))))))) =
      some (Json.obj [("added_id", Json.num ⟨intDecimal A⟩),
        ("created_at", Json.str s)], []) := by
  have hesc : "added_id".data.flatMap goEscapeChar = "added_id".data := by decide
  have hps : parseStringBody (("added_id".data ++
        (Char.ofNat 34 :: Char.ofNat 58 :: (intDecimal A ++ (Char.ofNat 44 ::
          Char.ofNat 34 :: ("created_at".data ++
            (Char.ofNat 34 :: Char.ofNat 58 ::
              (goQuote s ++ [Char.ofNat 125]))))))).length + 1)
      ("added_id".data ++
        (Char.ofNat 34 :: Char.ofNat 58 :: (intDecimal A ++ (Char.ofNat 44 ::
          Char.ofNat 34 :: ("created_at".data ++
            (Char.ofNat 34 :: Char.ofNat 58 ::
              (goQuote s ++ [Char.ofNat 125]))))))) =
      some ("added_id".data, Char.ofNat 58 :: (intDecimal A ++ (Char.ofNat 44 ::
        Char.ofNat 34 :: ("created_at".data ++
          (Char.ofNat 34 :: Char.ofNat 58 ::
            (goQuote s ++ [Char.ofNat 125])))))) := by
    conv_lhs => rw [← hesc]
    exact parseStringBody_unquote "added_id".data _ _
      (by rw [hesc]; simp only [List.length_append, List.length_cons]; omega)
  have hsk : skipWS (Char.ofNat 34 :: ("added_id".data ++
      (Char.ofNat 34 :: Char.ofNat 58 :: (intDecimal A ++ (Char.ofNat 44 ::
        Char.ofNat 34 :: ("created_at".data ++
          (Char.ofNat 34 :: Char.ofNat 58 ::
            (goQuote s ++ [Char.ofNat 125])))))))) =
      Char.ofNat 34 :: ("added_id".data ++
      (Char.ofNat 34 :: Char.ofNat 58 :: (intDecimal A ++ (Char.ofNat 44 ::
        Char.ofNat 34 :: ("created_at".data ++
          (Char.ofNat 34 :: Char.ofNat 58 ::
            (goQuote s ++ [Char.ofNat 125]))))))) :=
    skipWS_cons_of_not_ws _ _ (by decide)
  have hsk2 : skipWS (Char.ofNat 58 :: (intDecimal A ++ (Char.ofNat 44 ::
      Char.ofNat 34 :: ("created_at".data ++
        (Char.ofNat 34 :: Char.ofNat 58 :: (goQuote s ++ [Char.ofNat 125])))))) =
      Char.ofNat 58 :: (intDecimal A ++ (Char.ofNat 44 ::
      Char.ofNat 34 :: ("created_at".data ++
        (Char.ofNat 34 :: Char.ofNat 58 :: (goQuote s ++ [Char.ofNat 125]))))) :=
    skipWS_cons_of_not_ws _ _ (by decide)
  have hv : parseCore (g + 2) 0 (intDecimal A ++ (Char.ofNat 44 ::
      Char.ofNat 34 :: ("created_at".data ++
        (Char.ofNat 34 :: Char.ofNat 58 :: (goQuote s ++ [Char.ofNat 125]))))) =
      some (Json.num ⟨intDecimal A⟩, Char.ofNat 44 ::
        Char.ofNat 34 :: ("created_at".data ++
          (Char.ofNat 34 :: Char.ofNat 58 ::
            (goQuote s ++ [Char.ofNat 125])))) :=
    parseCore0_intDecimal A (Char.ofNat 44) _ (g + 1) (by decide) (by decide)
      (by decide) (by decide)
  have hskc : skipWS (Char.ofNat 44 :: (Char.ofNat 34 :: ("created_at".data ++
      (Char.ofNat 34 :: Char.ofNat 58 :: (goQuote s ++ [Char.ofNat 125]))))) =
      Char.ofNat 44 :: (Char.ofNat 34 :: ("created_at".data ++
      (Char.ofNat 34 :: Char.ofNat 58 :: (goQuote s ++ [Char.ofNat 125])))) :=
    skipWS_cons_of_not_ws _ _ (by decide)
  have hmem : parseCore (g + 2) 1 (Char.ofNat 34 :: ("created_at".data ++
      (Char.ofNat 34 :: Char.ofNat 58 :: (goQuote s ++ [Char.ofNat 125])))) =
      some (Json.obj [("created_at", Json.str s)], []) :=
    parseCore1_created s g
  have hm0 : ((1 : Nat) = 0) = False := by decide
  generalize hg : g + 2 = G at hv hmem
  rw [show g + 3 = G + 1 by omega]
  simp only [parseCore, hm0, if_false, if_true, hsk, hps, Option.bind, hsk2, hv,
    hskc, hmem]

theorem parseCore0_object_step (t : List Char) (g : Nat) :
    parseCore (g + 1) 0 (Char.ofNat 123 :: (Char.ofNat 34 :: t)) =
      parseCore g 1 (Char.ofNat 34 :: t) := by
  have hsk0 : skipWS (Char.ofNat 123 :: (Char.ofNat 34 :: t)) =
      Char.ofNat 123 :: (Char.ofNat 34 :: t) :=
    skipWS_cons_of_not_ws _ _ (by decide)
  have hsk1 : skipWS (Char.ofNat 34 :: t) = Char.ofNat 34 :: t :=
    skipWS_cons_of_not_ws _ _ (by decide)
  have hne1 : (Char.ofNat 123 = Char.ofNat 34) = False := eq_false (by decide)
  have hne2 : (Char.ofNat 34 = Char.ofNat 125) = False := eq_false (by decide)
  simp only [parseCore, if_true, hsk0, hne1, if_false, hsk1, hne2]

theorem jsonParse_marshalCursor (c : Cursor) :
    jsonParse (jsonMarshalCursor c) = .ok (Json.obj
      ((if c.AddedID = 0 then [] else
          [("added_id", Json.num ⟨intDecimal c.AddedID⟩)]) ++
       (if c.CreatedAt = "" then [] else
          [("created_at", Json.str c.CreatedAt)]))) := by
  have hq1 : "\"added_id\":".data =
      Char.ofNat 34 :: ("added_id".data ++ [Char.ofNat 34, Char.ofNat 58]) := by
    decide
  have hq2 : "\"created_at\":".data =
      Char.ofNat 34 :: ("created_at".data ++ [Char.ofNat 34, Char.ofNat 58]) := by
    decide
  by_cases hA : c.AddedID = 0
  · by_cases hC : c.CreatedAt = ""
    · have hm : jsonMarshalCursor c = [Char.ofNat 123, Char.ofNat 125] := by
        unfold jsonMarshalCursor
        rw [if_pos hA, if_pos hC]
        rfl
      rw [hm, if_pos hA, if_pos hC]
      rfl
    · have hm : jsonMarshalCursor c = Char.ofNat 123 :: (Char.ofNat 34 ::
          ("created_at".data ++ (Char.ofNat 34 :: Char.ofNat 58 ::
            (goQuote c.CreatedAt ++ [Char.ofNat 125])))) := by
        unfold jsonMarshalCursor
        rw [if_pos hA, if_neg hC, if_pos hA, hq2]
        simp [List.append_assoc]
      rw [hm]
      unfold jsonParse parseValue
      rw [show (Char.ofNat 123 :: (Char.ofNat 34 ::
          ("created_at".data ++ (Char.ofNat 34 :: Char.ofNat 58 ::
            (goQuote c.CreatedAt ++ [Char.ofNat 125]))))).length + 1 =
          (("created_at".data ++ (Char.ofNat 34 :: Char.ofNat 58 ::
            (goQuote c.CreatedAt ++ [Char.ofNat 125]))).length + 2) + 1 from by
        rw [List.length_cons, List.length_cons]]
      rw [parseCore0_object_step]
      rw [parseCore1_created c.CreatedAt _]
      rw [if_pos hA, if_neg hC]
      rfl
  · by_cases hC : c.CreatedAt = ""
    · have hm : jsonMarshalCursor c = Char.ofNat 123 :: (Char.ofNat 34 ::
          ("added_id".data ++ (Char.ofNat 34 :: Char.ofNat 58 ::
            (intDecimal c.AddedID ++ [Char.ofNat 125])))) := by
        unfold jsonMarshalCursor
        rw [if_neg hA, if_pos hC, hq1]
        simp [List.append_assoc]
      rw [hm]
      unfold jsonParse parseValue
      rw [show (Char.ofNat 123 :: (Char.ofNat 34 ::
          ("added_id".data ++ (Char.ofNat 34 :: Char.ofNat 58 ::
            (intDecimal c.AddedID ++ [Char.ofNat 125]))))).length + 1 =
          (("added_id".data ++ (Char.ofNat 34 :: Char.ofNat 58 ::
            (intDecimal c.AddedID ++ [Char.ofNat 125]))).length + 2) + 1 from by
        rw [List.length_cons, List.length_cons]]
      rw [parseCore0_object_step]
      rw [parseCore1_added c.AddedID _]
      rw [if_neg hA, if_pos hC]
      rfl
    · have hm : jsonMarshalCursor c = Char.ofNat 123 :: (Char.ofNat 34 ::
          ("added_id".data ++ (Char.ofNat 34 :: Char.ofNat 58 ::
            (intDecimal c.AddedID ++ (Char.ofNat 44 :: Char.ofNat 34 ::
              ("created_at".data ++ (Char.ofNat 34 :: Char.ofNat 58 ::
                (goQuote c.CreatedAt ++ [Char.ofNat 125])))))))) := by
        unfold jsonMarshalCursor
        rw [if_neg hA, if_neg hC, if_neg hA, hq1, hq2]
        simp [List.append_assoc]
      rw [hm]
      unfold jsonParse parseValue
      have h8 : ("added_id".data).length = 8 := by decide
      rw [show (Char.ofNat 123 :: (Char.ofNat 34 ::
          ("added_id".data ++ (Char.ofNat 34 :: Char.ofNat 58 ::
            (intDecimal c.AddedID ++ (Char.ofNat 44 :: Char.ofNat 34 ::
              ("created_at".data ++ (Char.ofNat 34 :: Char.ofNat 58 ::
                (goQuote c.CreatedAt ++ [Char.ofNat 125]))))))))).length + 1 =
          (("added_id".data ++ (Char.ofNat 34 :: Char.ofNat 58 ::
            (intDecimal c.AddedID ++ (Char.ofNat 44 :: Char.ofNat 34 ::
              ("created_at".data ++ (Char.ofNat 34 :: Char.ofNat 58 ::
                (goQuote c.CreatedAt ++ [Char.ofNat 125]))))))).length + 2) + 1
          from by
        rw [List.length_cons, List.length_cons]]
      rw [parseCore0_object_step]
      rw [List.length_append, h8]
      rw [show (8 + (Char.ofNat 34 :: Char.ofNat 58 ::
          (intDecimal c.AddedID ++ (Char.ofNat 44 :: Char.ofNat 34 ::
            ("created_at".data ++ (Char.ofNat 34 :: Char.ofNat 58 ::
              (goQuote c.CreatedAt ++ [Char.ofNat 125])))))).length) + 2 =
          (7 + (Char.ofNat 34 :: Char.ofNat 58 ::
            (intDecimal c.AddedID ++ (Char.ofNat 44 :: Char.ofNat 34 ::
              ("created_at".data ++ (Char.ofNat 34 :: Char.ofNat 58 ::
                (goQuote c.CreatedAt ++ [Char.ofNat 125])))))).length) + 3
          from by omega]
      rw [parseCore1_both c.AddedID c.CreatedAt _]
      rw [if_neg hA, if_neg hC]
      rfl

theorem cursorFromJson_marshal (c : Cursor)
    (h : -9223372036854775808 ≤ c.AddedID ∧ c.AddedID < 9223372036854775808) :
    cursorFromJson (Json.obj
      ((if c.AddedID = 0 then [] else
          [("added_id", Json.num ⟨intDecimal c.AddedID⟩)]) ++
       (if c.CreatedAt = "" then [] else
          [("created_at", Json.str c.CreatedAt)]))) = .ok c := by
  obtain ⟨a, s⟩ := c
  simp only at h
  have hp : parseInt64 (intDecimal a) = some a := parseInt64_intDecimal a h
  have hne : (("created_at" : String) = "added_id") = False := by decide
  by_cases hA : a = 0
  · by_cases hC : s = ""
    · subst hA
      subst hC
      rfl
    · subst hA
      rw [if_pos rfl, if_neg hC]
      simp [cursorFromJson, hne]
  · by_cases hC : s = ""
    · subst hC
      rw [if_neg hA, if_pos rfl]
      simp [cursorFromJson, hp]
    · rw [if_neg hA, if_neg hC]
      simp [cursorFromJson, hp, hne]

/-- C10 (amended): Cursor.Encode never fails (it is a total function of the
cursor), and for every cursor whose AddedID is a value of Go's int64 type
(the declared type of the field), DecodeCursor inverts Encode exactly:
DecodeCursor (c.Encode()) = ok c, for every CreatedAt string.  The claim's
rejection clause is refuted separately: DecodeCursor accepts some inputs
that are not base64 of a JSON cursor object. -/
theorem cursor_encode_decode_roundtrip (c : Cursor)
    (h : -9223372036854775808 ≤ c.AddedID ∧ c.AddedID < 9223372036854775808) :
    DecodeCursor (cursorEncode c) = .ok c := by
  unfold DecodeCursor cursorEncode
  rw [base64urlDecode_encode ((jsonMarshalCursor c).flatMap utf8EncodeChar)
    (flatMap_utf8_lt_256 (jsonMarshalCursor c))]
  show (match utf8Decode ((jsonMarshalCursor c).flatMap utf8EncodeChar) with
    | none => Except.error "invalid utf-8 in cursor"
    | some text =>
      match jsonParse text.data with
      | .error e => Except.error e
      | .ok j => cursorFromJson j) = Except.ok c
  rw [utf8Decode_encode (jsonMarshalCursor c)]
  show (match jsonParse (jsonMarshalCursor c) with
    | .error e => Except.error e
    | .ok j => cursorFromJson j) = Except.ok c
  rw [jsonParse_marshalCursor c]
  exact cursorFromJson_marshal c h

/-- C10 counterexample to the rejection clause: the string "bnVsbA==" is
URL-safe base64 of the four bytes of "null", which is a JSON document but
not a cursor object; DecodeCursor nevertheless succeeds with the zero
cursor, because json.Unmarshal of null into a struct is a no-op. -/
theorem cursor_decode_nonobject_counterexample :
    DecodeCursor "bnVsbA==" = .ok ⟨0, ""⟩ ∧
      jsonParse "null".data = .ok Json.null := by
  constructor
  · decide
  · rfl

theorem cursor_encode_decode_roundtrip_witness :
    (-9223372036854775808 ≤ (12345 : Int) ∧
        (12345 : Int) < 9223372036854775808) ∧
      DecodeCursor (cursorEncode ⟨12345, "2026-02-15T10:30:00Z"⟩) =
        .ok ⟨12345, "2026-02-15T10:30:00Z"⟩ :=
  ⟨by decide, cursor_encode_decode_roundtrip ⟨12345, "2026-02-15T10:30:00Z"⟩
    (by decide)⟩

/-- Page from internal/storage: a paginated result set with the next-page
cursor (empty if no more pages) and the has-more flag. -/
structure Page where
  Cells : List Cell
  NextCursor : String
  HasMore : Bool

/-- The zero values of the accumulators lastAddedID / lastCreatedAt in
PartitionRead's scan loop (int64 zero and the zero time). -/
def zeroCell : Cell := ⟨0, [], "", 0, Json.null, 0⟩

/-- `if limit <= 0 { limit = 1000 }`: the default applied when the caller
supplies no limit. -/
def effLimit (limit : Int) : Int := if limit ≤ 0 then 1000 else limit

/-- Cursor decoding at the top of PartitionRead: an empty cursor string
means no cursor; otherwise DecodeCursor must succeed. -/
def decodeCursorOpt (cursor : String) : Except String (Option Cursor) :=
  if cursor = "" then .ok none
  else
    match DecodeCursor cursor with
    | .error e => .error e
    | .ok cv => .ok (some cv)

/-- The tail of PartitionRead: build the Page, and when the page is full
(len(cells) == limit) emit has_more together with the encoded cursor built
from the last scanned row (ascending order makes it the greatest). -/
def buildPage (readType : Int) (fmtTime : Int → String) (lim : Nat)
    (cells : List Cell) : Page :=
  if cells.length = lim then
    { Cells := cells,
      NextCursor := cursorEncode
        (if readType = 1 then ⟨0, fmtTime (cells.getLastD zeroCell).createdAt⟩
         else ⟨(cells.getLastD zeroCell).addedId, ""⟩),
      HasMore := true }
  else { Cells := cells, NextCursor := "", HasMore := false }

/-- `if cursorVal != nil && cursorVal.CreatedAt != ""`: the created_at
lower bound parsed from the cursor, or the zero time. -/
def createdAfterOf (parseTime : String → Except String Int) :
    Option Cursor → Except String Int
  | some cv => if cv.CreatedAt = "" then .ok 0 else parseTime cv.CreatedAt
  | none => .ok 0

/-- `if cursorVal != nil { afterAddedID = cursorVal.AddedID }`. -/
def afterAddedOf : Option Cursor → Int
  | some cv => cv.AddedID
  | none => 0

/-- PostgresStore.PartitionRead (the revision embedded alongside the cursor
tests): default the limit, decode the cursor, run the readType-specific
query (WHERE key > after ORDER BY key ASC LIMIT lim, modeled as
filter/sort/take over the shard's rows), and build the page.  time.Time
formatting and parsing of created_at values are outside the repo and
passed as parameters; the zero time is modeled as 0. -/
def partitionRead (fmtTime : Int → String)
    (parseTime : String → Except String Int) (s : ShardState)
    (readType : Int) (cursor : String) (limit : Int) : Except String Page :=
  match decodeCursorOpt cursor with
  | .error _ => .error "invalid cursor"
  | .ok cursorVal =>
    if readType = 1 then
      match createdAfterOf parseTime cursorVal with
      | .error _ => .error "invalid created_at cursor"
      | .ok createdAfter =>
        .ok (buildPage 1 fmtTime (effLimit limit).toNat
          ((sortBy (fun a b => decide (a.createdAt ≤ b.createdAt))
            (s.cells.filter fun c => decide (createdAfter < c.createdAt))).take
              (effLimit limit).toNat))
    else if readType = 2 then
      .ok (buildPage 2 fmtTime (effLimit limit).toNat
        ((sortBy (fun a b => decide (a.addedId ≤ b.addedId))
          (s.cells.filter fun c =>
            decide (afterAddedOf cursorVal < c.addedId))).take
              (effLimit limit).toNat))
    else .error "invalid read type"

theorem mem_sortedInsertBy {α : Type} (le : α → α → Bool) (x : α) :
    ∀ (l : List α) (z : α), z ∈ sortedInsertBy le x l ↔ z = x ∨ z ∈ l := by
  intro l
  induction l with
  | nil =>
    intro z
    simp [sortedInsertBy]
  | cons y ys ih =>
    intro z
    by_cases h : le x y
    · simp [sortedInsertBy, h]
    · simp only [sortedInsertBy, if_neg h, List.mem_cons, ih]
      tauto

theorem pairwise_sortedInsertBy {α : Type} (le : α → α → Bool)
    (htot : ∀ a b, le a b = true ∨ le b a = true)
    (htrans : ∀ a b c, le a b = true → le b c = true → le a c = true)
    (x : α) : ∀ l : List α, l.Pairwise (fun a b => le a b = true) →
    (sortedInsertBy le x l).Pairwise (fun a b => le a b = true) := by
  intro l
  induction l with
  | nil =>
    intro _
    simp [sortedInsertBy]
  | cons y ys ih =>
    intro hp
    obtain ⟨hy, hys⟩ := List.pairwise_cons.mp hp
    by_cases h : le x y
    · rw [sortedInsertBy, if_pos h]
      refine List.pairwise_cons.mpr ⟨?_, hp⟩
      intro z hz
      rcases List.mem_cons.mp hz with rfl | hz'
      · exact h
      · exact htrans x y z h (hy z hz')
    · rw [sortedInsertBy, if_neg h]
      refine List.pairwise_cons.mpr ⟨?_, ih hys⟩
      intro z hz
      rcases (mem_sortedInsertBy le x ys z).mp hz with hzx | hz'
      · rw [hzx]
        rcases htot x y with h1 | h1
        · exact absurd h1 h
        · exact h1
      · exact hy z hz'

theorem pairwise_sortBy {α : Type} (le : α → α → Bool)
    (htot : ∀ a b, le a b = true ∨ le b a = true)
    (htrans : ∀ a b c, le a b = true → le b c = true → le a c = true)
    (l : List α) : (sortBy le l).Pairwise (fun a b => le a b = true) := by
  induction l with
  | nil => exact List.Pairwise.nil
  | cons x xs ih => exact pairwise_sortedInsertBy le htot htrans x (sortBy le xs) ih

theorem getLastD_mem_cons {α : Type} : ∀ (l : List α) (a d : α),
    (a :: l).getLastD d ∈ a :: l := by
  intro l
  induction l with
  | nil =>
    intro a d
    simp [List.getLastD]
  | cons b t ih =>
    intro a d
    rw [List.getLastD_cons]
    exact List.mem_cons_of_mem a (ih b a)

theorem pairwise_getLastD_max (f : Cell → Int) : ∀ (l : List Cell),
    l.Pairwise (fun a b => decide (f a ≤ f b) = true) →
    ∀ (d : Cell), ∀ x ∈ l, f x ≤ f (l.getLastD d) := by
  intro l
  induction l with
  | nil =>
    intro _ d x hx
    exact absurd hx (List.not_mem_nil x)
  | cons a t ih =>
    intro hp d x hx
    rw [List.getLastD_cons]
    rcases List.mem_cons.mp hx with rfl | hx'
    · cases t with
      | nil => simp [List.getLastD]
      | cons b t' =>
        have hmem := getLastD_mem_cons t' b x
        exact of_decide_eq_true ((List.pairwise_cons.mp hp).1 _ hmem)
    · exact ih (List.pairwise_cons.mp hp).2 a x hx'

theorem base64Chars_ne_nil (b : Nat) (tl : List Nat) : base64Chars (b :: tl) ≠ [] := by
  cases tl with
  | nil => simp [base64Chars]
  | cons b1 tl2 =>
    cases tl2 with
    | nil => simp [base64Chars]
    | cons b2 r => simp [base64Chars]

theorem cursorEncode_ne_empty (c : Cursor) : cursorEncode c ≠ "" := by
  unfold cursorEncode base64urlEncode
  intro he
  have hd := congrArg String.data he
  show False
  have hmne : jsonMarshalCursor c ≠ [] := by
    unfold jsonMarshalCursor
    exact List.cons_ne_nil _ _
  have hbne : (jsonMarshalCursor c).flatMap utf8EncodeChar ≠ [] := by
    obtain ⟨ch, mtl, hm⟩ := List.exists_cons_of_ne_nil hmne
    rw [hm, List.flatMap_cons]
    intro hnil
    rw [List.append_eq_nil] at hnil
    exact utf8EncodeChar_ne_nil ch hnil.1
  obtain ⟨b, btl, hb⟩ := List.exists_cons_of_ne_nil hbne
  rw [hb] at hd
  exact base64Chars_ne_nil b btl hd

theorem buildPage_spec (readType : Int) (ft : Int → String) (lim : Nat)
    (hlim : 1 ≤ lim) (cells : List Cell) (f : Cell → Int)
    (hpw : cells.Pairwise (fun a b => decide (f a ≤ f b) = true)) :
    ((buildPage readType ft lim cells).HasMore = true ↔ cells.length = lim) ∧
    (buildPage readType ft lim cells).Cells = cells ∧
    (cells.length = lim →
      (buildPage readType ft lim cells).NextCursor ≠ "" ∧
      ∃ last ∈ cells,
        (buildPage readType ft lim cells).NextCursor = cursorEncode
          (if readType = 1 then ⟨0, ft last.createdAt⟩
           else ⟨last.addedId, ""⟩) ∧
        ∀ x ∈ cells, f x ≤ f last) ∧
    (cells.length ≠ lim →
      (buildPage readType ft lim cells).HasMore = false ∧
      (buildPage readType ft lim cells).NextCursor = "") := by
  unfold buildPage
  by_cases hlen : cells.length = lim
  · rw [if_pos hlen]
    refine ⟨by simp [hlen], rfl, ?_, fun hne => absurd hlen hne⟩
    intro _
    have hne : cells ≠ [] := by
      intro hnil
      rw [hnil] at hlen
      simp at hlen
      omega
    obtain ⟨a, t, hat⟩ := List.exists_cons_of_ne_nil hne
    refine ⟨cursorEncode_ne_empty _, cells.getLastD zeroCell, ?_, rfl, ?_⟩
    · rw [hat]
      exact getLastD_mem_cons t a zeroCell
    · intro x hx
      exact pairwise_getLastD_max f cells hpw zeroCell x hx
  · rw [if_neg hlen]
    exact ⟨by simp [hlen], rfl, fun hfull => absurd hfull hlen,
      fun _ => ⟨rfl, rfl⟩⟩

/-- C7: for every shard state, read type, cursor and positive requested
limit L, a successful PartitionRead returns has_more = true exactly when
the page holds exactly L cells, and in that case the next cursor is
non-empty and encodes the greatest added_id (read type 2) or the formatted
greatest created_at (read type 1) of the page; otherwise has_more = false
and the next cursor is the empty string. -/
theorem partition_read_has_more_iff_full_page
    (ft : Int → String) (pt : String → Except String Int) (s : ShardState)
    (readType : Int) (cursor : String) (L : Int) (page : Page)
    (hL : 0 < L)
    (h : partitionRead ft pt s readType cursor L = .ok page) :
    (page.HasMore = true ↔ page.Cells.length = L.toNat) ∧
    (page.Cells.length = L.toNat →
      page.NextCursor ≠ "" ∧
      ∃ last ∈ page.Cells,
        page.NextCursor = cursorEncode
          (if readType = 1 then ⟨0, ft last.createdAt⟩
           else ⟨last.addedId, ""⟩) ∧
        (readType = 1 → ∀ x ∈ page.Cells, x.createdAt ≤ last.createdAt) ∧
        (readType = 2 → ∀ x ∈ page.Cells, x.addedId ≤ last.addedId)) ∧
    (page.Cells.length ≠ L.toNat →
      page.HasMore = false ∧ page.NextCursor = "") := by
  have hEff : effLimit L = L := by
    unfold effLimit
    rw [if_neg (by omega)]
  have hlim1 : 1 ≤ (effLimit L).toNat := by
    rw [hEff]
    omega
  unfold partitionRead at h
  split at h
  · simp at h
  · rename_i cursorVal heq
    split at h
    · rename_i hrt1
      subst hrt1
      split at h
      · simp at h
      · rename_i createdAfter hca
        replace h := Except.ok.inj h
        subst h
        obtain ⟨hiff, hcells, hfull, hnot⟩ := buildPage_spec 1 ft
          (effLimit L).toNat hlim1
          (List.take (effLimit L).toNat
            (sortBy (fun a b => decide (a.createdAt ≤ b.createdAt))
              (List.filter (fun c => decide (createdAfter < c.createdAt))
                s.cells)))
          (fun c => c.createdAt)
          (List.Pairwise.sublist (List.take_sublist _ _)
            (pairwise_sortBy
              (fun a b : Cell => decide (a.createdAt ≤ b.createdAt))
              (fun a b => by
                rcases le_total a.createdAt b.createdAt with h1 | h1
                · exact Or.inl (decide_eq_true h1)
                · exact Or.inr (decide_eq_true h1))
              (fun a b c h1 h2 =>
                decide_eq_true (le_trans (of_decide_eq_true h1)
                  (of_decide_eq_true h2)))
              _))
        rw [hEff] at hiff hcells hfull hnot ⊢
        rw [hcells]
        refine ⟨hiff, ?_, hnot⟩
        intro hfl
        obtain ⟨hnc, last, hlmem, hlenc, hlmax⟩ := hfull hfl
        exact ⟨hnc, last, hlmem, hlenc,
          fun _ => hlmax, fun h12 => absurd h12 (by decide)⟩
    · split at h
      · rename_i hrt1 hrt2
        subst hrt2
        replace h := Except.ok.inj h
        subst h
        obtain ⟨hiff, hcells, hfull, hnot⟩ := buildPage_spec 2 ft
          (effLimit L).toNat hlim1
          (List.take (effLimit L).toNat
            (sortBy (fun a b => decide (a.addedId ≤ b.addedId))
              (List.filter (fun c =>
                decide (afterAddedOf cursorVal < c.addedId)) s.cells)))
          (fun c => c.addedId)
          (List.Pairwise.sublist (List.take_sublist _ _)
            (pairwise_sortBy
              (fun a b : Cell => decide (a.addedId ≤ b.addedId))
              (fun a b => by
                rcases le_total a.addedId b.addedId with h1 | h1
                · exact Or.inl (decide_eq_true h1)
                · exact Or.inr (decide_eq_true h1))
              (fun a b c h1 h2 =>
                decide_eq_true (le_trans (of_decide_eq_true h1)
                  (of_decide_eq_true h2)))
              _))
        rw [hEff] at hiff hcells hfull hnot ⊢
        rw [hcells]
        refine ⟨hiff, ?_, hnot⟩
        intro hfl
        obtain ⟨hnc, last, hlmem, hlenc, hlmax⟩ := hfull hfl
        exact ⟨hnc, last, hlmem, hlenc,
          fun h21 => absurd h21 (by decide), fun _ => hlmax⟩
      · simp at h

theorem buildPage_Cells (rt : Int) (ft : Int → String) (lim : Nat)
    (cells : List Cell) : (buildPage rt ft lim cells).Cells = cells := by
  unfold buildPage
  split <;> rfl

/-- C8 (amended): PartitionRead defaults the limit to 1000 when the caller
supplies limit ≤ 0, but applies no server-side maximum: a successful page
holds at most (if L ≤ 0 then 1000 else L) cells, a bound that grows
without limit as the caller's request grows. -/
theorem partition_read_limit_defaulted_uncapped
    (ft : Int → String) (pt : String → Except String Int) (s : ShardState)
    (readType : Int) (cursor : String) (L : Int) (page : Page)
    (h : partitionRead ft pt s readType cursor L = .ok page) :
    page.Cells.length ≤ (if L ≤ 0 then 1000 else L).toNat := by
  unfold partitionRead at h
  split at h
  · simp at h
  · split at h
    · split at h
      · simp at h
      · replace h := Except.ok.inj h
        subst h
        rw [buildPage_Cells]
        show _ ≤ (effLimit L).toNat
        rw [List.length_take]
        exact Nat.min_le_left _ _
    · split at h
      · replace h := Except.ok.inj h
        subst h
        rw [buildPage_Cells]
        show _ ≤ (effLimit L).toNat
        rw [List.length_take]
        exact Nat.min_le_left _ _
      · simp at h

/-- A shard table holding 1001 cells with added_id 1..1001. -/
def bigState : ShardState :=
  ⟨(List.range 1001).map (fun i => ⟨(i : Int) + 1, [], "c", 0, Json.null, 0⟩),
   1002⟩

set_option maxRecDepth 100000 in
/-- C8 counterexample to the cap clause: requesting limit 1001 returns a
page of 1001 cells, exceeding the claimed server maximum (the 1000 used as
the default); PartitionRead never caps a positive caller-supplied limit. -/
theorem partition_read_no_cap_counterexample :
    (partitionRead (fun _ => "") (fun _ => .ok 0) bigState 2 "" 1001).map
      (fun p => p.Cells.length) = .ok 1001 ∧ 1000 < 1001 := by
  constructor
  · decide
  · decide

theorem partition_read_has_more_witness :
    (0 : Int) < 2 ∧
      partitionRead (fun _ => "t") (fun _ => .ok 0)
        ⟨[⟨1, [], "c", 0, Json.null, 10⟩, ⟨2, [], "c", 0, Json.null, 20⟩,
          ⟨3, [], "c", 0, Json.null, 30⟩], 4⟩ 2 "" 2 =
        .ok { Cells := [⟨1, [], "c", 0, Json.null, 10⟩,
                        ⟨2, [], "c", 0, Json.null, 20⟩],
              NextCursor := cursorEncode ⟨2, ""⟩, HasMore := true } ∧
      (({ Cells := [⟨1, [], "c", 0, Json.null, 10⟩,
                    ⟨2, [], "c", 0, Json.null, 20⟩],
          NextCursor := cursorEncode ⟨2, ""⟩, HasMore := true } : Page).HasMore
          = true ↔
        ({ Cells := [⟨1, [], "c", 0, Json.null, 10⟩,
                     ⟨2, [], "c", 0, Json.null, 20⟩],
           NextCursor := cursorEncode ⟨2, ""⟩,
           HasMore := true } : Page).Cells.length = (2 : Int).toNat) :=
  ⟨by decide, rfl,
    (partition_read_has_more_iff_full_page (fun _ => "t") (fun _ => .ok 0)
      ⟨[⟨1, [], "c", 0, Json.null, 10⟩, ⟨2, [], "c", 0, Json.null, 20⟩,
        ⟨3, [], "c", 0, Json.null, 30⟩], 4⟩ 2 "" 2
      { Cells := [⟨1, [], "c", 0, Json.null, 10⟩,
                  ⟨2, [], "c", 0, Json.null, 20⟩],
        NextCursor := cursorEncode ⟨2, ""⟩, HasMore := true }
      (by decide) rfl).1⟩

theorem partition_read_limit_witness :
    partitionRead (fun _ => "") (fun _ => .ok 0) emptyShard 2 "" 5 =
      .ok { Cells := [], NextCursor := "", HasMore := false } ∧
    ({ Cells := [], NextCursor := "", HasMore := false } : Page).Cells.length ≤
      (if (5 : Int) ≤ 0 then (1000 : Int) else 5).toNat :=
  ⟨rfl, partition_read_limit_defaulted_uncapped (fun _ => "")
    (fun _ => .ok 0) emptyShard 2 "" 5
    { Cells := [], NextCursor := "", HasMore := false } rfl⟩
